import Mathlib

/-!
Verification development for the Medical_Deep_Research workflow orchestration
engine: a shallow embedding of the plan/step data model
(`src/prompts/planner_model.py`), the node state machine
(`src/graph/nodes.py`) and the streaming driver (`src/workflow.py`),
together with theorems settling the specification claims.

Conventions of the embedding:
* JSON values are modelled by the inductive `Json`; Python `None` is `Json.null`.
* Python truthiness is made explicit (`Json.truthy`, `resFalsy`, ...).
* External effects (language-model responses, JSON parsing of model output,
  tool telemetry) are inputs to the embedded functions.
* A raised Python exception that the code does not catch is an `Except.error`.
-/

namespace MedDR

/-- Json values, as produced by `json.loads`.  Python `None` is `null`;
object keys are assumed unique (as produced by the JSON parser). -/
inductive Json where
  | null : Json
  | b (v : Bool) : Json
  | i (n : Int) : Json
  | s (v : String) : Json
  | arr (xs : List Json) : Json
  | obj (kvs : List (String × Json)) : Json

mutual

/-- Boolean equality of json values (Python `==` on parsed json). -/
def Json.beq : Json → Json → Bool
  | .null, .null => true
  | .b a, .b c => a == c
  | .i a, .i c => a == c
  | .s a, .s c => a == c
  | .arr xs, .arr ys => Json.beqList xs ys
  | .obj xs, .obj ys => Json.beqKVs xs ys
  | _, _ => false

/-- Boolean equality of json arrays. -/
def Json.beqList : List Json → List Json → Bool
  | [], [] => true
  | x :: xs, y :: ys => Json.beq x y && Json.beqList xs ys
  | _, _ => false

/-- Boolean equality of json objects (ordered field lists). -/
def Json.beqKVs : List (String × Json) → List (String × Json) → Bool
  | [], [] => true
  | (k, v) :: xs, (k', v') :: ys => k == k' && Json.beq v v' && Json.beqKVs xs ys
  | _, _ => false

end

instance : BEq Json := ⟨Json.beq⟩

/-- Dictionary lookup, `d.get(k)` / `k in d`. -/
def jlookup (kvs : List (String × Json)) (k : String) : Option Json :=
  match kvs with
  | [] => none
  | (k', v) :: rest => if k' = k then some v else jlookup rest k

/-- Python truthiness of a json value: `None`, `False`, `0`, `""`, `[]`, `{}`
are falsy, everything else truthy. -/
def Json.truthy : Json → Bool
  | .null => false
  | .b v => v
  | .i n => !(n == 0)
  | .s v => !(v == "")
  | .arr xs => !xs.isEmpty
  | .obj kvs => !kvs.isEmpty

/-- Whether a json value is an object containing the given key
(Python `isinstance(x, dict) and k in x`). -/
def jHasKey (j : Json) (k : String) : Bool :=
  match j with
  | .obj kvs => (jlookup kvs k).isSome
  | _ => false

/-! ## Plan model (`src/prompts/planner_model.py`) -/

/-- The `StepType(str, Enum)` with canonical values `"research"` and
`"processing"`. -/
inductive StepType where
  | research
  | processing
deriving DecidableEq

/-- String value of the enum member (`step_type.value`). -/
def StepType.value : StepType → String
  | .research => "research"
  | .processing => "processing"

/-- A `Step` of the plan: `title`, `description`, `step_type` are required,
`execution_res` is optional with default `None`. -/
structure Step where
  title : String
  description : String
  step_type : StepType
  execution_res : Option String := none
deriving DecidableEq

/-- A `Plan`: `has_enough_context`, `thought`, `title`, `steps` are all
required fields. -/
structure Plan where
  has_enough_context : Bool
  thought : String
  title : String
  steps : List Step
deriving DecidableEq

/-! Pydantic-style validation of raw json into `Plan`/`Step`.  A missing
required field or a type mismatch is a `ValidationError`, modelled as
`Except.error`.  (Pydantic's lax coercions of numerals or strings into
`bool` are not exercised by any claim and are not modelled.) -/

/-- Required field lookup: pydantic reports a missing required field as a
validation error. -/
def reqField (kvs : List (String × Json)) (k : String) : Except String Json :=
  match jlookup kvs k with
  | some v => Except.ok v
  | none => Except.error ("Field required: " ++ k)

/-- Validate a `str` field. -/
def parseStr : Json → Except String String
  | .s v => Except.ok v
  | _ => Except.error ("Input should be a valid string")

/-- Validate a `bool` field. -/
def parseBool : Json → Except String Bool
  | .b v => Except.ok v
  | _ => Except.error ("Input should be a valid boolean")

/-- Validate a `StepType` field: only the two canonical enum strings are
accepted, anything else is a validation error. -/
def parseStepType : Json → Except String StepType
  | .s v =>
    if v = "research" then Except.ok StepType.research
    else if v = "processing" then Except.ok StepType.processing
    else Except.error ("Input should be research or processing")
  | _ => Except.error ("Input should be research or processing")

/-- Validate an `Optional[str]` field (`None` allowed). -/
def parseOptStr : Json → Except String (Option String)
  | .null => Except.ok none
  | .s v => Except.ok (some v)
  | _ => Except.error ("Input should be a valid string")

/-- Validate the optional `execution_res` field of a step object: absent
means the default `None`. -/
def parseExecutionRes (kvs : List (String × Json)) : Except String (Option String) :=
  match jlookup kvs ("execution_res") with
  | some v => parseOptStr v
  | none => Except.ok none

/-- Validate one step object (`Step.model_validate`). -/
def Step.model_validate : Json → Except String Step
  | .obj kvs => do
    let t ← reqField kvs ("title") >>= parseStr
    let d ← reqField kvs ("description") >>= parseStr
    let ty ← reqField kvs ("step_type") >>= parseStepType
    let er ← parseExecutionRes kvs
    Except.ok { title := t, description := d, step_type := ty, execution_res := er }
  | _ => Except.error ("Input should be a valid dictionary")

/-- Validate a list of step objects. -/
def parseSteps : List Json → Except String (List Step)
  | [] => Except.ok []
  | x :: rest => do
    let s ← Step.model_validate x
    let ss ← parseSteps rest
    Except.ok (s :: ss)

/-- Validate a whole plan object (`Plan.model_validate`). -/
def Plan.model_validate : Json → Except String Plan
  | .obj kvs => do
    let hec ← reqField kvs ("has_enough_context") >>= parseBool
    let th ← reqField kvs ("thought") >>= parseStr
    let ti ← reqField kvs ("title") >>= parseStr
    let stepsJson ← reqField kvs ("steps")
    match stepsJson with
    | .arr xs => do
      let ss ← parseSteps xs
      Except.ok { has_enough_context := hec, thought := th, title := ti, steps := ss }
    | _ => Except.error ("Input should be a valid list")
  | _ => Except.error ("Input should be a valid dictionary")

/-! ## Step selection and the write of `execution_res`
(`_execute_agent_step`, `research_team_node` in `src/graph/nodes.py`) -/

/-- Python truthiness of `step.execution_res`: falsy when `None` or the
empty string — such a step counts as pending (`if not step.execution_res`). -/
def resFalsy : Option String → Bool
  | none => true
  | some r => r == ""

/-- The in-place write `current_step.execution_res = response_content`
performed by `_execute_agent_step` after its first-pending-step scan:
set `execution_res` on the first step whose `execution_res` is falsy,
leave every other step unchanged. -/
def setFirstPending (steps : List Step) (res : String) : List Step :=
  match steps with
  | [] => []
  | st :: rest =>
    if resFalsy st.execution_res then { st with execution_res := some res } :: rest
    else st :: setFirstPending rest res

/-! ## State and node state machine (`src/graph/types.py`, `src/graph/nodes.py`) -/

/-- A message of the transcript, in the serialized form
`{role, content, name}` produced by `serialize_message` (message objects and
message dicts are not distinguished by the model). -/
structure Msg where
  role : String
  content : String
  name : Option String
deriving DecidableEq

/-- The value held by `state["current_plan"]`: Python code stores `None`,
a raw model-output string, a validated `Plan` object, or (as handled
defensively by the driver) a json dict. -/
inductive PlanVal where
  | none_ : PlanVal
  | raw (s : String) : PlanVal
  | plan (p : Plan) : PlanVal
  | json (j : Json) : PlanVal

/-- Python truthiness of `state["current_plan"]`. -/
def planvalTruthy : PlanVal → Bool
  | .none_ => false
  | .raw s => !(s == "")
  | .plan _ => true
  | .json j => j.truthy

/-- The graph `State` threaded through every node (the fields the core
reads and writes). -/
structure GState where
  messages : List Msg
  current_plan : PlanVal
  plan_iterations : Nat
  observations : List String
  final_report : String
  human_feedback : Bool

/-- The nodes of the workflow graph (the `goto` targets of the node
functions; `end_` is langgraph's `__end__`). -/
inductive Node where
  | coordinator
  | planner
  | plan_modifier
  | feedback_node
  | research_team
  | researcher
  | coder
  | reporter
  | end_
deriving DecidableEq

/-- The `initial_state` dict built by `run_agent_workflow_async`. -/
def initialState (user_input : String) (human_feedback : Bool) : GState :=
  { messages := [{ role := "user", content := user_input, name := none }]
    current_plan := .none_
    plan_iterations := 0
    observations := []
    final_report := ""
    human_feedback := human_feedback }

/-- External inputs consumed by one node invocation: language-model
responses and the results of json parsing of model output
(`json.loads(repair_json_output(...))`, with `repair_json_output` —
absent from `src/` — treated per the spec as a total repair pass whose
failure surfaces as a parse failure, i.e. an `Option Json` of `none`). -/
structure Env where
  coordHasToolCalls : Bool
  coordContent : String
  plannerResp : String
  plannerParsed : Option Json
  feedbackText : String
  feedbackParsed : Option Json
  modifierParsed : Option Json
  agentResp : String
  reporterResp : String

/-- Python `state["plan_iterations"] if state.get("plan_iterations", 0) else 0`. -/
def pyIterRead (n : Nat) : Nat :=
  if n ≠ 0 then n else 0

/-- The `coordinator_node`: hands off to the planner when the model's
response carries a tool call, otherwise appends the coordinator's direct
reply and terminates. -/
def coordinator_node (st : GState) (e : Env) : GState × Node :=
  if e.coordHasToolCalls then (st, .planner)
  else
    ({ st with messages :=
        st.messages ++ [{ role := "ai", content := e.coordContent, name := some ("coordinator") }] },
      .end_)

/-- Result of `planner_node`: the updated state, the `goto` target, and
whether the line invoking the language model was reached. -/
structure PlannerRes where
  st : GState
  goto : Node
  invoked_llm : Bool

/-- The `planner_node`: short-circuits to `reporter` when
`plan_iterations >= max_plan_iterations` (before the model is invoked);
otherwise parses the model output, routing per
`has_enough_context` / parse failure.  An uncaught `ValidationError` or
attribute error is an `Except.error`. -/
def planner_node (max_plan_iterations : Nat) (st : GState) (e : Env) :
    Except String PlannerRes :=
  let plan_iterations := pyIterRead st.plan_iterations
  if plan_iterations ≥ max_plan_iterations then
    Except.ok { st := st, goto := .reporter, invoked_llm := false }
  else
    let full_response := e.plannerResp
    match e.plannerParsed with
    | none =>
      -- json.JSONDecodeError branch
      if plan_iterations > 0 then Except.ok { st := st, goto := .reporter, invoked_llm := true }
      else Except.ok { st := st, goto := .end_, invoked_llm := true }
    | some curr_plan =>
      match curr_plan with
      | .obj kvs =>
        if ((jlookup kvs ("has_enough_context")).getD Json.null).truthy then
          match Plan.model_validate (.obj kvs) with
          | .ok new_plan =>
            Except.ok
              { st :=
                  { st with
                    messages := st.messages ++
                      [{ role := "ai", content := full_response, name := some ("planner") }]
                    current_plan := .plan new_plan }
                goto := .reporter
                invoked_llm := true }
          | .error msg => Except.error msg  -- ValidationError propagates uncaught
        else
          Except.ok
            { st :=
                { st with
                  messages := st.messages ++
                    [{ role := "ai", content := full_response, name := some ("planner") }]
                  current_plan := .raw full_response }
              goto := .feedback_node
              invoked_llm := true }
      | _ => Except.error ("AttributeError: object has no attribute get")

/-- The `human_feedback_node`: optionally diverts to the plan modifier on
`[EDIT_PLAN]` input; otherwise increments the (local) iteration counter,
parses the current plan and routes per `has_enough_context`, falling to
the JSONDecodeError branch on parse failure.  A `KeyError`/`TypeError`
on the parsed value or a `ValidationError` propagates uncaught. -/
def human_feedback_node (st : GState) (e : Env) : Except String (GState × Node) :=
  if st.human_feedback ∧ e.feedbackText ≠ "" ∧
      (e.feedbackText.toUpper.startsWith ("[EDIT_PLAN]")) then
    Except.ok
      ({ st with messages :=
          st.messages ++ [{ role := "human", content := e.feedbackText, name := some ("feedback") }] },
        .plan_modifier)
  else
    let plan_iterations := pyIterRead st.plan_iterations
    -- try: repair_json_output; plan_iterations += 1; json.loads; ...
    let plan_iterations := plan_iterations + 1
    match e.feedbackParsed with
    | none =>
      -- json.JSONDecodeError branch (the local counter was already incremented)
      if plan_iterations > 0 then Except.ok (st, .reporter)
      else Except.ok (st, .end_)
    | some new_plan =>
      match new_plan with
      | .obj kvs =>
        match jlookup kvs ("has_enough_context") with
        | none => Except.error ("KeyError: has_enough_context")
        | some v =>
          let goto := if v.truthy then Node.reporter else Node.research_team
          match Plan.model_validate (.obj kvs) with
          | .ok p =>
            Except.ok
              ({ st with current_plan := .plan p, plan_iterations := plan_iterations }, goto)
          | .error msg => Except.error msg
      | _ => Except.error ("TypeError: value is not subscriptable")

/-- The `plan_modifier_node`: finds the first feedback message, asks the
model for a revised plan; a parse failure returns to the feedback node
without an update, a `ValidationError` propagates uncaught.  (The prompt
construction has no effect on the state and is not modelled.) -/
def plan_modifier_node (st : GState) (e : Env) : Except String (GState × Node) :=
  let feedback_content :=
    ((st.messages.find? (fun m => m.name == some ("feedback"))).map Msg.content).getD ("")
  if feedback_content = "" then Except.ok (st, .feedback_node)
  else
    match e.modifierParsed with
    | none => Except.ok (st, .feedback_node)
    | some modified_plan =>
      match Plan.model_validate modified_plan with
      | .ok new_plan =>
        Except.ok
          ({ st with
              messages := st.messages ++
                [{ role := "ai", content := e.plannerResp, name := some ("plan_modifier") }]
              current_plan := .plan new_plan },
            .feedback_node)
      | .error msg => Except.error msg

/-- The `research_team_node` router: no plan or empty steps, or every
step completed (truthy `execution_res`), routes back to the planner;
otherwise the first pending step's `step_type` selects the agent.
A non-`Plan` truthy `current_plan` raises an uncaught attribute error. -/
def research_team_node (st : GState) : Except String Node :=
  match st.current_plan with
  | .none_ => Except.ok .planner
  | .raw s => if s = "" then Except.ok .planner else Except.error ("AttributeError: steps")
  | .json j => if j.truthy then Except.error ("AttributeError: steps") else Except.ok .planner
  | .plan p =>
    if p.steps.isEmpty then Except.ok .planner
    else if p.steps.all (fun s => !resFalsy s.execution_res) then Except.ok .planner
    else
      match p.steps.find? (fun s => resFalsy s.execution_res) with
      | some step =>
        match step.step_type with
        | .research => Except.ok .researcher
        | .processing => Except.ok .coder
      | none => Except.ok .planner

/-- The agent-step executor `_execute_agent_step`: finds the first step
with falsy `execution_res`; if none, returns to the router with no
update; otherwise writes the agent's final message content into that
step, appends one agent message and one observation.  (The agent's own
recursion-limit configuration does not affect the state and is not
modelled.) -/
def execute_agent_step (st : GState) (agent_name : String) (agentResp : String) :
    Except String (GState × Node) :=
  match st.current_plan with
  | .plan p =>
    match p.steps.find? (fun s => resFalsy s.execution_res) with
    | none => Except.ok (st, .research_team)
    | some _ =>
      let response_content := agentResp
      Except.ok
        ({ st with
            current_plan := .plan { p with steps := setFirstPending p.steps response_content }
            messages := st.messages ++
              [{ role := "human", content := response_content, name := some agent_name }]
            observations := st.observations ++ [response_content] },
          .research_team)
  | _ => Except.error ("AttributeError: steps")

/-- The `reporter_node`: sets `final_report` from the model's response and
terminates.  (Prompt construction — format selection, observations — has
no effect on the state beyond `final_report` and is not modelled.) -/
def reporter_node (st : GState) (reporterResp : String) : GState × Node :=
  ({ st with final_report := reporterResp }, .end_)

/-- Modelled from the spec: the graph assembly (`src/graph/builder.py`,
absent from `src/`) "wires nodes into a directed graph", driving "Node
Functions in sequence, each returning an updated State and a `goto`
target" (spec §2, §9); message updates accumulate on the append-only
message log (spec §3).  One step dispatches the current node's function
and follows its `goto`. -/
def stepMachine (max_plan_iterations : Nat) (st : GState) (n : Node) (e : Env) :
    Except String (GState × Node) :=
  match n with
  | .coordinator => Except.ok (coordinator_node st e)
  | .planner => (planner_node max_plan_iterations st e).map (fun r => (r.st, r.goto))
  | .plan_modifier => plan_modifier_node st e
  | .feedback_node => human_feedback_node st e
  | .research_team => (research_team_node st).map (fun g => (st, g))
  | .researcher => execute_agent_step st ("researcher") e.agentResp
  | .coder => execute_agent_step st ("coder") e.agentResp
  | .reporter => Except.ok (reporter_node st e.reporterResp)
  | .end_ => Except.ok (st, .end_)

/-- Run the machine from a configuration, consuming one `Env` per node
invocation; the trace records every visited configuration.  The run
stops at `__end__`, on an uncaught exception, or when the budget of
environments is exhausted. -/
def runMachine (max_plan_iterations : Nat) :
    GState → Node → List Env → List (GState × Node)
  | st, n, [] => [(st, n)]
  | st, n, e :: es =>
    (st, n) ::
      (if n = Node.end_ then []
       else
        match stepMachine max_plan_iterations st n e with
        | .error _ => []
        | .ok (st', n') => runMachine max_plan_iterations st' n' es)

/-! ## Streaming driver (`src/workflow.py`) -/

/-- The discriminated events yielded by `run_agent_workflow_async`
(tool telemetry payloads are opaque). -/
inductive Event where
  | tool (payload : String)
  | message (content : Msg)
  | plan (content : Json)
  | execution_res (step_title : Json) (content : Json)
  | final_report (content : String)
  | error (content : String)

/-- The `serialize_message` normalization: messages are modelled directly
in the serialized `{role, content, name}` form, on which the function is
the identity (the dict branch returns its argument unchanged). -/
def serialize_message (m : Msg) : Msg := m

/-- The `{"error": "Invalid plan format"}` marker returned by
`serialize_plan` for an invalid plan. -/
def errorMarker : Json :=
  Json.obj [("error", Json.s ("Invalid plan format"))]

/-- Serialization of one `Step` of a validated `Plan`. -/
def serializeStepOfPlan (st : Step) : Json :=
  Json.obj
    [("title", Json.s st.title),
     ("description", Json.s st.description),
     ("step_type", Json.s st.step_type.value),
     ("execution_res", (st.execution_res.map Json.s).getD Json.null)]

/-- Serialization of the step dicts of a raw plan dict
(`step.get("title", "")` etc.); a non-dict element raises an uncaught
`AttributeError`. -/
def serStepsDict : List Json → Except String (List Json)
  | [] => Except.ok []
  | .obj kvs :: rest => do
    let ss ← serStepsDict rest
    Except.ok
      (Json.obj
        [("title", (jlookup kvs ("title")).getD (Json.s (""))),
         ("description", (jlookup kvs ("description")).getD (Json.s (""))),
         ("step_type", (jlookup kvs ("step_type")).getD Json.null),
         ("execution_res", (jlookup kvs ("execution_res")).getD Json.null)] :: ss)
  | _ :: _ => Except.error ("AttributeError: object has no attribute get")

/-- The `serialize_plan` function: a validated `Plan` serializes by field;
a dict is unwrapped from `planner_output` (when that value is a dict) and
serialized via `get` defaults when its `steps` value is a list; anything
else yields the error marker.  An exception raised mid-serialization is
`Except.error`. -/
def serialize_plan : PlanVal → Except String Json
  | .plan p =>
    Except.ok
      (Json.obj
        [("has_enough_context", Json.b p.has_enough_context),
         ("thought", Json.s p.thought),
         ("title", Json.s p.title),
         ("steps", Json.arr (p.steps.map serializeStepOfPlan))])
  | .json (.obj kvs0) =>
    let kvs :=
      match jlookup kvs0 ("planner_output") with
      | some (.obj inner) => inner
      | _ => kvs0
    match (jlookup kvs ("steps")).getD (Json.arr []) with
    | .arr xs =>
      (serStepsDict xs).map
        (fun ss =>
          Json.obj
            [("title", (jlookup kvs ("title")).getD (Json.s (""))),
             ("thought", (jlookup kvs ("thought")).getD (Json.s (""))),
             ("steps", Json.arr ss)])
    | _ => Except.ok errorMarker
  | _ => Except.ok errorMarker

/-- The driver-side unwrap of a nested `planner_output` key
(`if isinstance(raw_plan, dict) and "planner_output" in raw_plan`). -/
def unwrapOnce : PlanVal → PlanVal
  | .json (.obj kvs) =>
    match jlookup kvs ("planner_output") with
    | some v => .json v
    | none => .json (.obj kvs)
  | pv => pv

/-- The mutable bookkeeping of the driver loop: `last_message_cnt`,
`current_plan_yielded`, `yielded_steps`. -/
structure DrvSt where
  last_message_cnt : Nat
  current_plan_yielded : Bool
  yielded_steps : List Json

/-- The plan-emission block of the driver loop: at most once per run,
and only when the serialization is not the error marker; an exception
raised by `serialize_plan` becomes an `error` event and aborts the rest
of this snapshot's processing (third component). -/
def planBlock (current_plan_yielded : Bool) (pv : PlanVal) :
    List Event × Bool × Bool :=
  if !current_plan_yielded && planvalTruthy pv then
    match serialize_plan (unwrapOnce pv) with
    | .error m => ([Event.error m], current_plan_yielded, true)
    | .ok j =>
      if jHasKey j ("error") then ([], current_plan_yielded, false)
      else ([Event.plan j], true, false)
  else ([], current_plan_yielded, false)

/-- The `execution_res`-emission loop over the steps of a validated
`Plan`: one event per step whose result is truthy and whose title was not
yielded before. -/
def execLoopPlan (steps : List Step) (yielded : List Json) :
    List Event × List Json :=
  match steps with
  | [] => ([], yielded)
  | st :: rest =>
    let step_title := Json.s st.title
    if !resFalsy st.execution_res && !(yielded.contains step_title) then
      let res := execLoopPlan rest (yielded ++ [step_title])
      (Event.execution_res step_title (Json.s (st.execution_res.getD (""))) :: res.1, res.2)
    else execLoopPlan rest yielded

/-- The `execution_res`-emission loop over raw step dicts; a non-dict
element raises (`step.get`), aborting the loop after the events already
yielded. -/
def execLoopDict (xs : List Json) (yielded : List Json) :
    List Event × List Json × Option String :=
  match xs with
  | [] => ([], yielded, none)
  | .obj kvs :: rest =>
    let step_title := (jlookup kvs ("title")).getD Json.null
    let step_res := (jlookup kvs ("execution_res")).getD Json.null
    if step_res.truthy && !(yielded.contains step_title) then
      let res := execLoopDict rest (yielded ++ [step_title])
      (Event.execution_res step_title step_res :: res.1, res.2.1, res.2.2)
    else execLoopDict rest yielded
  | _ :: _ => ([], yielded, some ("AttributeError: object has no attribute get"))

/-- The `execution_res` block of the driver loop: runs when
`current_plan` is truthy and is a `Plan` or a dict with a `steps` key
(after the `planner_output` unwrap); iterating a non-list `steps` value
or a non-dict step raises, which surfaces as an `error` event and aborts
the rest of this snapshot's processing. -/
def execBlock (pv : PlanVal) (yielded : List Json) :
    List Event × List Json × Bool :=
  if planvalTruthy pv then
    match unwrapOnce pv with
    | .plan p =>
      let res := execLoopPlan p.steps yielded
      (res.1, res.2, false)
    | .json (.obj kvs) =>
      match jlookup kvs ("steps") with
      | none => ([], yielded, false)
      | some (.arr xs) =>
        match execLoopDict xs yielded with
        | (evs, y', none) => (evs, y', false)
        | (evs, y', some m) => (evs ++ [Event.error m], y', true)
      | some (.s t) =>
        if t = "" then ([], yielded, false)
        else ([Event.error ("AttributeError: object has no attribute get")], yielded, true)
      | some (.obj kv2) =>
        if kv2.isEmpty then ([], yielded, false)
        else ([Event.error ("AttributeError: object has no attribute get")], yielded, true)
      | some _ => ([Event.error ("TypeError: object is not iterable")], yielded, true)
    | _ => ([], yielded, false)
  else ([], yielded, false)

/-- Processing of one observed state snapshot (the body of the
`async for` loop): drain tool telemetry, emit message deltas, then the
plan block, the `execution_res` block and the final-report check; an
exception in a block yields a single `error` event and skips the
remaining blocks for this snapshot. -/
def processSnapshot (d : DrvSt) (toolEvs : List String) (s : GState) :
    List Event × DrvSt :=
  let evs0 := toolEvs.map Event.tool
  let grow := s.messages.length > d.last_message_cnt
  let msgEvs :=
    if grow then
      (s.messages.drop d.last_message_cnt).map (fun m => Event.message (serialize_message m))
    else []
  let cnt := if grow then s.messages.length else d.last_message_cnt
  let pRes := planBlock d.current_plan_yielded s.current_plan
  if pRes.2.2 then
    (evs0 ++ msgEvs ++ pRes.1,
      { last_message_cnt := cnt, current_plan_yielded := pRes.2.1,
        yielded_steps := d.yielded_steps })
  else
    let xRes := execBlock s.current_plan d.yielded_steps
    if xRes.2.2 then
      (evs0 ++ msgEvs ++ pRes.1 ++ xRes.1,
        { last_message_cnt := cnt, current_plan_yielded := pRes.2.1,
          yielded_steps := xRes.2.1 })
    else
      let fEvs := if s.final_report ≠ "" then [Event.final_report s.final_report] else []
      (evs0 ++ msgEvs ++ pRes.1 ++ xRes.1 ++ fEvs,
        { last_message_cnt := cnt, current_plan_yielded := pRes.2.1,
          yielded_steps := xRes.2.1 })

/-- How the graph execution ended: normal completion, or an exception
(whose message the outer handler inspects). -/
inductive Outcome where
  | completed
  | failed (msg : String)

/-- Whether the first list is an initial segment of the second. -/
def leadsList : List Char → List Char → Bool
  | [], _ => true
  | _ :: _, [] => false
  | a :: as, b :: bs => a == b && leadsList as bs

/-- Python's substring test `needle in hay` over character lists. -/
def listContainsSub (needle hay : List Char) : Bool :=
  match hay with
  | [] => needle.isEmpty
  | _ :: rest => leadsList needle hay || listContainsSub needle rest

/-- Python's `str.lower()` (ASCII-sufficient for the tested literal). -/
def pyLower (s : String) : String :=
  String.mk (s.data.map Char.toLower)

/-- The string test `"recursion limit" in error_msg.lower()`. -/
def containsRecursionLimit (msg : String) : Bool :=
  listContainsSub ("recursion limit").data (pyLower msg).data

/-- The `handle_recursion_limit` fallback: invoke the reporter node
directly on the last known state and extract `final_report` from its
update; a failure inside the reporter degrades to an error string
(still returned as report content). -/
def handle_recursion_limit (st : GState) (reporterRes : Except String String) : String :=
  match reporterRes with
  | .ok resp => (reporter_node st resp).1.final_report
  | .error e => "Report generation failed due to recursion limit: " ++ e

/-- One iteration of the driver's accumulation: process the snapshot,
append its events, carry the bookkeeping and remember the snapshot's
state as `last_state`. -/
def driverStep (acc : List Event × DrvSt × GState) (snap : List String × GState) :
    List Event × DrvSt × GState :=
  let step := processSnapshot acc.2.1 snap.1 snap.2
  (acc.1 ++ step.1, step.2, snap.2)

/-- One run of the streaming driver `run_agent_workflow_async`: an empty
`user_input` raises `ValueError` before any event; otherwise the
snapshots observed from the graph are processed in order, and the final
outcome is handled — a recursion-limit failure is converted into a
`final_report` event built by `handle_recursion_limit` on the last
observed state, any other failure into a single `error` event.  The
returned value is the complete event stream (`Except.error` = an
exception escaping the generator). -/
def run_agent_workflow_async (user_input : String) (human_feedback : Bool)
    (snaps : List (List String × GState)) (outcome : Outcome)
    (reporterRes : Except String String) : Except String (List Event) :=
  if user_input = "" then Except.error ("Input could not be empty")
  else
    let init := initialState user_input human_feedback
    let folded := snaps.foldl driverStep ([], ⟨0, false, []⟩, init)
    match outcome with
    | .completed => Except.ok folded.1
    | .failed msg =>
      if containsRecursionLimit msg then
        Except.ok (folded.1 ++ [Event.final_report (handle_recursion_limit folded.2.2 reporterRes)])
      else Except.ok (folded.1 ++ [Event.error msg])

/-- Event discriminators used by the stream-shape theorems. -/
def Event.isMessage : Event → Bool
  | .message _ => true
  | _ => false

/-- Whether an event is a `plan` event. -/
def Event.isPlan : Event → Bool
  | .plan _ => true
  | _ => false

/-- Whether an event is a `final_report` event. -/
def Event.isFinalReport : Event → Bool
  | .final_report _ => true
  | _ => false

/-- The message contents carried by the `message` events of a stream. -/
def msgEventsOf (evs : List Event) : List Msg :=
  evs.filterMap (fun ev =>
    match ev with
    | .message m => some m
    | _ => none)

/-- The payloads carried by the `plan` events of a stream. -/
def planEventsOf (evs : List Event) : List Json :=
  evs.filterMap (fun ev =>
    match ev with
    | .plan j => some j
    | _ => none)

/-- The contents carried by the `final_report` events of a stream. -/
def finalReportEventsOf (evs : List Event) : List String :=
  evs.filterMap (fun ev =>
    match ev with
    | .final_report c => some c
    | _ => none)

/-- The append-only property of the observed snapshot sequence relative
to a base message log: each snapshot's `messages` extends the previous
one (spec §3: the message log is append-only). -/
def msgChain : List Msg → List (List String × GState) → Prop
  | _, [] => True
  | prev, snap :: rest =>
    (∃ t, snap.2.messages = prev ++ t) ∧ msgChain snap.2.messages rest

/-- Whether a snapshot's `current_plan` would be emitted as a `plan`
event by the driver: truthy, and its serialization (after the
`planner_output` unwrap) succeeds without the error marker. -/
def planCandidate (pv : PlanVal) : Bool :=
  planvalTruthy pv &&
    match serialize_plan (unwrapOnce pv) with
    | .ok j => !(jHasKey j ("error"))
    | .error _ => false

/-- The payload the driver would emit for a candidate `current_plan`. -/
def planPayload (pv : PlanVal) : Option Json :=
  match serialize_plan (unwrapOnce pv) with
  | .ok j => some j
  | .error _ => none

/-- The invariant of the machine run underpinning the plan-iteration
bound: the counter never exceeds the maximum, and the feedback /
plan-modifier nodes are only ever entered strictly below it (they are
reachable only through the planner's guarded branch). -/
def MachineInv (m : Nat) (st : GState) (n : Node) : Prop :=
  st.plan_iterations ≤ m ∧
    ((n = Node.feedback_node ∨ n = Node.plan_modifier) → st.plan_iterations < m)

/-- Concrete fixture: an environment whose model outputs are all inert
(used by witnesses). -/
def fixtureEnv : Env :=
  { coordHasToolCalls := true, coordContent := "", plannerResp := "",
    plannerParsed := none, feedbackText := "", feedbackParsed := none,
    modifierParsed := none, agentResp := "", reporterResp := "" }

/-- Concrete fixture: an empty validated plan (used by witnesses). -/
def fixturePlan : Plan :=
  { has_enough_context := false, thought := "th", title := "ti", steps := [] }

/-- Concrete fixture: a state holding only `fixturePlan`. -/
def fixtureState : GState :=
  { messages := [], current_plan := PlanVal.plan fixturePlan,
    plan_iterations := 0, observations := [], final_report := "",
    human_feedback := false }

/-- Concrete fixture: the serialization of `fixturePlan`. -/
def fixturePlanJson : Json :=
  Json.obj
    [("has_enough_context", Json.b false), ("thought", Json.s ("th")),
     ("title", Json.s ("ti")), ("steps", Json.arr [])]

/-! ## Helper lemmas -/

/-- Inversion of a successful `Except` bind. -/
theorem exceptBind_ok {α β : Type} {x : Except String α} {f : α → Except String β} {b : β}
    (h : (x >>= f) = Except.ok b) : ∃ a, x = Except.ok a ∧ f a = Except.ok b := by
  cases x with
  | ok a => exact ⟨a, rfl, h⟩
  | error e => simp [Bind.bind, Except.bind] at h

/-- A successful `reqField` means the key is present. -/
theorem reqField_ok {kvs : List (String × Json)} {k : String} {v : Json}
    (h : reqField kvs k = Except.ok v) : jlookup kvs k = some v := by
  unfold reqField at h
  cases hl : jlookup kvs k <;> simp [hl] at h
  simp [h]

/-- A successfully validated step list validates every member. -/
theorem parseSteps_ok_mem {xs : List Json} {ss : List Step}
    (h : parseSteps xs = Except.ok ss) :
    ∀ x ∈ xs, ∃ s, Step.model_validate x = Except.ok s := by
  induction xs generalizing ss with
  | nil => intro x hx; cases hx
  | cons y ys ih =>
    intro x hx
    unfold parseSteps at h
    obtain ⟨s, hs, h2⟩ := exceptBind_ok h
    obtain ⟨ss', hss, _⟩ := exceptBind_ok h2
    cases hx with
    | head => exact ⟨s, hs⟩
    | tail _ hmem => exact ih hss x hmem

/-- A successfully validated step object carries its three required
fields, and its `step_type` went through `parseStepType`. -/
theorem step_validate_ok_fields {j : Json} {s : Step}
    (h : Step.model_validate j = Except.ok s) :
    ∃ skvs, j = Json.obj skvs ∧
      (jlookup skvs ("title")).isSome ∧
      (jlookup skvs ("description")).isSome ∧
      ∃ tj, jlookup skvs ("step_type") = some tj ∧ parseStepType tj = Except.ok s.step_type := by
  cases j with
  | obj skvs =>
    refine ⟨skvs, rfl, ?_⟩
    unfold Step.model_validate at h
    obtain ⟨t, ht, h2⟩ := exceptBind_ok h
    obtain ⟨tj1, htj1, _⟩ := exceptBind_ok ht
    obtain ⟨d, hd, h3⟩ := exceptBind_ok h2
    obtain ⟨dj1, hdj1, _⟩ := exceptBind_ok hd
    obtain ⟨ty, hty, h4⟩ := exceptBind_ok h3
    obtain ⟨yj1, hyj1, hyparse⟩ := exceptBind_ok hty
    obtain ⟨er, her, h5⟩ := exceptBind_ok h4
    have hs : s.step_type = ty := by
      cases h5
      rfl
    refine ⟨by simp [reqField_ok htj1], by simp [reqField_ok hdj1],
      yj1, reqField_ok hyj1, ?_⟩
    rw [hs]
    exact hyparse
  | null => cases h
  | b v => cases h
  | i n => cases h
  | s v => cases h
  | arr xs => cases h

/-- A successfully validated plan object carries its required fields, and
its steps list validated element-wise. -/
theorem plan_validate_ok_fields {kvs : List (String × Json)} {p : Plan}
    (h : Plan.model_validate (Json.obj kvs) = Except.ok p) :
    (jlookup kvs ("has_enough_context")).isSome ∧
    (jlookup kvs ("thought")).isSome ∧
    (jlookup kvs ("title")).isSome ∧
    ∃ xs, jlookup kvs ("steps") = some (Json.arr xs) ∧ parseSteps xs = Except.ok p.steps := by
  unfold Plan.model_validate at h
  obtain ⟨hec, hhec, h2⟩ := exceptBind_ok h
  obtain ⟨hj, hhj, _⟩ := exceptBind_ok hhec
  obtain ⟨th, hth, h3⟩ := exceptBind_ok h2
  obtain ⟨thj, hthj, _⟩ := exceptBind_ok hth
  obtain ⟨ti, hti, h4⟩ := exceptBind_ok h3
  obtain ⟨tij, htij, _⟩ := exceptBind_ok hti
  obtain ⟨sj, hsj, h5⟩ := exceptBind_ok h4
  refine ⟨by simp [reqField_ok hhj], by simp [reqField_ok hthj],
    by simp [reqField_ok htij], ?_⟩
  cases sj with
  | arr xs =>
    obtain ⟨ss, hss, h6⟩ := exceptBind_ok h5
    refine ⟨xs, reqField_ok hsj, ?_⟩
    have : p.steps = ss := by
      cases h6
      rfl
    rw [this]
    exact hss
  | null => cases h5
  | b v => cases h5
  | i n => cases h5
  | s v => cases h5
  | obj o => cases h5

/-- Characterization of `parseStepType`: exactly the two canonical enum
strings are accepted. -/
theorem parseStepType_ok_iff (j : Json) (t : StepType) :
    parseStepType j = Except.ok t ↔
      ((j = Json.s ("research") ∧ t = StepType.research) ∨
       (j = Json.s ("processing") ∧ t = StepType.processing)) := by
  cases j with
  | s v =>
    by_cases hr : v = "research"
    · subst hr
      have hred : parseStepType (Json.s ("research")) = Except.ok StepType.research := rfl
      rw [hred]
      constructor
      · intro h
        injection h with h'
        exact Or.inl ⟨rfl, h'.symm⟩
      · rintro (⟨-, ht⟩ | ⟨hv, -⟩)
        · subst ht; rfl
        · injection hv with h'
          exact absurd h' (by decide)
    · by_cases hp : v = "processing"
      · subst hp
        have hred : parseStepType (Json.s ("processing")) = Except.ok StepType.processing := rfl
        rw [hred]
        constructor
        · intro h
          injection h with h'
          exact Or.inr ⟨rfl, h'.symm⟩
        · rintro (⟨hv, -⟩ | ⟨-, ht⟩)
          · injection hv with h'
            exact absurd h' (by decide)
          · subst ht; rfl
      · have hred : parseStepType (Json.s v) =
            Except.error ("Input should be research or processing") := by
          show (if v = "research" then Except.ok StepType.research
            else if v = "processing" then Except.ok StepType.processing
            else Except.error ("Input should be research or processing")) =
            Except.error ("Input should be research or processing")
          rw [if_neg hr, if_neg hp]
        rw [hred]
        constructor
        · intro h; cases h
        · rintro (⟨hv, -⟩ | ⟨hv, -⟩)
          · injection hv with h'
            exact absurd h' hr
          · injection hv with h'
            exact absurd h' hp
  | null => simp [parseStepType]
  | b v => simp [parseStepType]
  | i n => simp [parseStepType]
  | arr xs => simp [parseStepType]
  | obj kvs => simp [parseStepType]

/-- C7 (confirmed): parsing a raw object into a `Plan` fails with a
`ValidationError` when the object is missing `has_enough_context`,
`title` or `thought`, or when any step object in `steps` is missing
`title`, `description` or `step_type`; and `step_type` accepts exactly
the two canonical strings `"research"` and `"processing"` — any other
value is a validation error, never a silent default. -/
theorem C7_plan_validation_strict :
    (∀ kvs : List (String × Json), jlookup kvs ("has_enough_context") = none →
      ∃ e, Plan.model_validate (Json.obj kvs) = Except.error e)
  ∧ (∀ kvs : List (String × Json), jlookup kvs ("title") = none →
      ∃ e, Plan.model_validate (Json.obj kvs) = Except.error e)
  ∧ (∀ kvs : List (String × Json), jlookup kvs ("thought") = none →
      ∃ e, Plan.model_validate (Json.obj kvs) = Except.error e)
  ∧ (∀ (kvs : List (String × Json)) (xs : List Json) (skvs : List (String × Json)),
      jlookup kvs ("steps") = some (Json.arr xs) → Json.obj skvs ∈ xs →
      (jlookup skvs ("title") = none ∨ jlookup skvs ("description") = none ∨
        jlookup skvs ("step_type") = none) →
      ∃ e, Plan.model_validate (Json.obj kvs) = Except.error e)
  ∧ (∀ (j : Json) (t : StepType), parseStepType j = Except.ok t ↔
      ((j = Json.s ("research") ∧ t = StepType.research) ∨
       (j = Json.s ("processing") ∧ t = StepType.processing))) := by
  refine ⟨?_, ?_, ?_, ?_, parseStepType_ok_iff⟩
  · intro kvs hmiss
    cases h : Plan.model_validate (Json.obj kvs) with
    | error e => exact ⟨e, rfl⟩
    | ok p =>
      have := (plan_validate_ok_fields h).1
      rw [hmiss] at this
      cases this
  · intro kvs hmiss
    cases h : Plan.model_validate (Json.obj kvs) with
    | error e => exact ⟨e, rfl⟩
    | ok p =>
      have := (plan_validate_ok_fields h).2.2.1
      rw [hmiss] at this
      cases this
  · intro kvs hmiss
    cases h : Plan.model_validate (Json.obj kvs) with
    | error e => exact ⟨e, rfl⟩
    | ok p =>
      have := (plan_validate_ok_fields h).2.1
      rw [hmiss] at this
      cases this
  · intro kvs xs skvs hsteps hmem hmiss
    cases h : Plan.model_validate (Json.obj kvs) with
    | error e => exact ⟨e, rfl⟩
    | ok p =>
      obtain ⟨_, _, _, xs', hxs', hparse⟩ := plan_validate_ok_fields h
      rw [hsteps] at hxs'
      have hxs : xs' = xs := by
        injection hxs' with h1
        injection h1 with h2
        exact h2.symm
      subst hxs
      obtain ⟨s, hs⟩ := parseSteps_ok_mem hparse _ hmem
      obtain ⟨skvs', hj, hti, hde, _, hty, _⟩ := step_validate_ok_fields hs
      have hkv : skvs' = skvs := by
        injection hj with h1
        exact h1.symm
      subst hkv
      rcases hmiss with hm | hm | hm
      · rw [hm] at hti; cases hti
      · rw [hm] at hde; cases hde
      · rw [hm] at hty; cases hty

/-- Entries with truthy (non-empty) `execution_res` are untouched by the
executor's write. -/
theorem setFirstPending_preserves (steps : List Step) (res : String) :
    ∀ (i : Nat) (h : i < steps.length),
      resFalsy (steps[i]).execution_res = false →
      (setFirstPending steps res)[i]? = steps[i]? := by
  induction steps with
  | nil => intro i h; exact absurd h (Nat.not_lt_zero i)
  | cons st rest ih =>
    intro i h hfalse
    unfold setFirstPending
    cases hf : resFalsy st.execution_res with
    | true =>
      rw [if_pos rfl]
      cases i with
      | zero =>
        simp only [List.getElem_cons_zero] at hfalse
        rw [hf] at hfalse
        cases hfalse
      | succ n => simp
    | false =>
      rw [if_neg Bool.false_ne_true]
      cases i with
      | zero => simp
      | succ n =>
        simp only [List.getElem_cons_succ] at hfalse
        simp only [List.getElem?_cons_succ]
        exact ih n (by simpa using h) hfalse

/-- The executor's write lands exactly on the first step whose
`execution_res` is falsy. -/
theorem setFirstPending_writes_first (steps : List Step) (res : String) :
    ∀ (j : Nat) (hj : j < steps.length),
      resFalsy (steps[j]).execution_res = true →
      (∀ (i : Nat) (hi : i < steps.length), i < j →
        resFalsy (steps[i]).execution_res = false) →
      (setFirstPending steps res)[j]? =
        some { steps[j] with execution_res := some res } := by
  induction steps with
  | nil => intro j hj; exact absurd hj (Nat.not_lt_zero j)
  | cons st rest ih =>
    intro j hj hfal hbefore
    cases j with
    | zero =>
      have hf : resFalsy st.execution_res = true := by simpa using hfal
      unfold setFirstPending
      rw [if_pos hf]
      simp
    | succ n =>
      have h0 : resFalsy st.execution_res = false := by
        have := hbefore 0 (by simp) (Nat.succ_pos n)
        simpa using this
      unfold setFirstPending
      rw [if_neg (by simp [h0])]
      simp only [List.getElem?_cons_succ, List.getElem_cons_succ] at *
      exact ih n (by simpa using hj) hfal
        (fun i hi hlt => by
          have := hbefore (i + 1) (by simpa using Nat.succ_lt_succ hi) (Nat.succ_lt_succ hlt)
          simpa using this)

/-- C2 (amended): a step whose `execution_res` holds a non-empty string
is never overwritten by a later execution pass — the executor's write
(`setFirstPending`, the in-place assignment of `_execute_agent_step`)
preserves every step with truthy `execution_res`, writes exactly to the
first step whose `execution_res` is `None` or empty, and through
`execute_agent_step` every completed (truthy) step survives unchanged. -/
theorem C2_execution_res_write_once :
    (∀ (steps : List Step) (res : String) (i : Nat) (h : i < steps.length),
      resFalsy (steps[i]).execution_res = false →
      (setFirstPending steps res)[i]? = steps[i]?)
  ∧ (∀ (steps : List Step) (res : String) (j : Nat) (hj : j < steps.length),
      resFalsy (steps[j]).execution_res = true →
      (∀ (i : Nat) (hi : i < steps.length), i < j →
        resFalsy (steps[i]).execution_res = false) →
      (setFirstPending steps res)[j]? =
        some { steps[j] with execution_res := some res })
  ∧ (∀ (st : GState) (p : Plan) (agent resp : String) (st' : GState) (n : Node),
      st.current_plan = PlanVal.plan p →
      execute_agent_step st agent resp = Except.ok (st', n) →
      ∀ (i : Nat) (h : i < p.steps.length),
        resFalsy (p.steps[i]).execution_res = false →
        ∃ p', st'.current_plan = PlanVal.plan p' ∧ p'.steps[i]? = p.steps[i]?) := by
  refine ⟨setFirstPending_preserves, setFirstPending_writes_first, ?_⟩
  intro st p agent resp st' n hcp hexec i h hres
  unfold execute_agent_step at hexec
  rw [hcp] at hexec
  dsimp only at hexec
  cases hfind : p.steps.find? (fun s => resFalsy s.execution_res) with
  | none =>
    rw [hfind] at hexec
    simp only [Except.ok.injEq, Prod.mk.injEq] at hexec
    obtain ⟨hst, -⟩ := hexec
    exact ⟨p, by rw [← hst, hcp], rfl⟩
  | some w =>
    rw [hfind] at hexec
    simp only [Except.ok.injEq, Prod.mk.injEq] at hexec
    obtain ⟨hst, -⟩ := hexec
    refine ⟨{ p with steps := setFirstPending p.steps resp }, by rw [← hst], ?_⟩
    exact setFirstPending_preserves p.steps resp i h hres

/-- Witness for C2 (amended): a concrete plan whose first step is
completed with non-empty text keeps that step intact across a pass. -/
theorem C2_execution_res_write_once_witness :
    (setFirstPending
      [{ title := "a", description := "b", step_type := StepType.research,
         execution_res := some "done" },
       { title := "c", description := "d", step_type := StepType.processing,
         execution_res := none }] ("new"))[0]? =
      [{ title := "a", description := "b", step_type := StepType.research,
         execution_res := some "done" },
       { title := "c", description := "d", step_type := StepType.processing,
         execution_res := none }][0]? :=
  C2_execution_res_write_once.1 _ "new" 0 (by decide) (by decide)

/-- Counterexample to C2 as stated: a step whose `execution_res` is set
(to the empty string, which is a set value per the data model, where only
`nil`/absent means pending) is overwritten by the next execution pass,
because Python truthiness treats `""` as pending. -/
theorem C2_counterexample :
    (Step.execution_res
      { title := "t", description := "d", step_type := StepType.research,
        execution_res := some "" } ≠ none) ∧
    execute_agent_step
      { messages := []
        current_plan := PlanVal.plan
          { has_enough_context := false, thought := "th", title := "ti",
            steps := [{ title := "t", description := "d",
                        step_type := StepType.research, execution_res := some "" }] }
        plan_iterations := 0, observations := [], final_report := ""
        human_feedback := false }
      ("researcher") ("overwritten")
      = Except.ok
        ({ messages := [{ role := "human", content := "overwritten",
                          name := some ("researcher") }]
           current_plan := PlanVal.plan
            { has_enough_context := false, thought := "th", title := "ti",
              steps := [{ title := "t", description := "d",
                          step_type := StepType.research,
                          execution_res := some "overwritten" }] }
           plan_iterations := 0, observations := ["overwritten"], final_report := ""
           human_feedback := false },
          Node.research_team) :=
  ⟨by simp, rfl⟩

/-- Any index other than the first falsy one is untouched by the
executor's write. -/
theorem setFirstPending_untouched (steps : List Step) (res : String) :
    ∀ (j : Nat) (hj : j < steps.length),
      resFalsy (steps[j]).execution_res = true →
      (∀ (i : Nat) (hi : i < steps.length), i < j →
        resFalsy (steps[i]).execution_res = false) →
      ∀ (i : Nat), i ≠ j → (setFirstPending steps res)[i]? = steps[i]? := by
  induction steps with
  | nil => intro j hj; exact absurd hj (Nat.not_lt_zero j)
  | cons st rest ih =>
    intro j hj hfal hbefore i hne
    cases j with
    | zero =>
      have hf : resFalsy st.execution_res = true := by simpa using hfal
      unfold setFirstPending
      rw [if_pos hf]
      cases i with
      | zero => exact absurd rfl hne
      | succ n => simp
    | succ m =>
      have h0 : resFalsy st.execution_res = false := by
        have := hbefore 0 (by simp) (Nat.succ_pos m)
        simpa using this
      unfold setFirstPending
      rw [if_neg (by simp [h0])]
      cases i with
      | zero => simp
      | succ n =>
        simp only [List.getElem?_cons_succ]
        refine ih m (by simpa using hj) (by simpa using hfal) ?_ n ?_
        · intro i' hi' hlt
          have := hbefore (i' + 1) (by simpa using Nat.succ_lt_succ hi') (Nat.succ_lt_succ hlt)
          simpa using this
        · intro hcon
          exact hne (by rw [hcon])

/-- C5 (amended): routing of `research_team_node` — a two-step
RESEARCH/PROCESSING plan with both steps pending routes to the
researcher; once the first step's `execution_res` holds a non-empty
string it routes to the coder; and an absent plan, an empty step list,
or a plan whose steps all carry non-empty results route back to the
planner. -/
theorem C5_research_team_routing :
    (∀ (st : GState) (p : Plan) (s1 s2 : Step),
      st.current_plan = PlanVal.plan p → p.steps = [s1, s2] →
      s1.step_type = StepType.research → s2.step_type = StepType.processing →
      s1.execution_res = none → s2.execution_res = none →
      research_team_node st = Except.ok Node.researcher)
  ∧ (∀ (st : GState) (p : Plan) (s1 s2 : Step) (r : String),
      st.current_plan = PlanVal.plan p → p.steps = [s1, s2] →
      s1.step_type = StepType.research → s2.step_type = StepType.processing →
      s1.execution_res = some r → r ≠ "" → s2.execution_res = none →
      research_team_node st = Except.ok Node.coder)
  ∧ (∀ st : GState, st.current_plan = PlanVal.none_ →
      research_team_node st = Except.ok Node.planner)
  ∧ (∀ (st : GState) (p : Plan), st.current_plan = PlanVal.plan p → p.steps = [] →
      research_team_node st = Except.ok Node.planner)
  ∧ (∀ (st : GState) (p : Plan), st.current_plan = PlanVal.plan p →
      (∀ s ∈ p.steps, resFalsy s.execution_res = false) →
      research_team_node st = Except.ok Node.planner) := by
  refine ⟨?_, ?_, ?_, ?_, ?_⟩
  · intro st p s1 s2 hcp hsteps h1 h2 hr1 hr2
    unfold research_team_node
    rw [hcp]
    dsimp only
    rw [hsteps]
    simp [List.find?, resFalsy, hr1, h1]
  · intro st p s1 s2 r hcp hsteps h1 h2 hr1 hr hr2
    unfold research_team_node
    rw [hcp]
    dsimp only
    rw [hsteps]
    have hbeq : (r == "") = false := by simpa using hr
    simp [List.find?, resFalsy, hr1, hr2, h2, hbeq]
  · intro st hcp
    unfold research_team_node
    rw [hcp]
  · intro st p hcp hsteps
    unfold research_team_node
    rw [hcp]
    dsimp only
    rw [hsteps]
    rfl
  · intro st p hcp hall
    unfold research_team_node
    rw [hcp]
    dsimp only
    by_cases he : p.steps.isEmpty = true
    · rw [if_pos he]
    · have hcond : p.steps.all (fun s => !resFalsy s.execution_res) = true := by
        rw [List.all_eq_true]
        intro s hs
        rw [hall s hs]
        rfl
      rw [if_neg he, if_pos hcond]

/-- Witness for C5 (amended): a concrete two-step plan routing. -/
theorem C5_research_team_routing_witness :
    research_team_node
      { messages := []
        current_plan := PlanVal.plan
          { has_enough_context := false, thought := "th", title := "ti",
            steps := [{ title := "s1", description := "d1",
                        step_type := StepType.research, execution_res := none },
                      { title := "s2", description := "d2",
                        step_type := StepType.processing, execution_res := none }] }
        plan_iterations := 0, observations := [], final_report := ""
        human_feedback := false } = Except.ok Node.researcher :=
  C5_research_team_routing.1 _ _
    { title := "s1", description := "d1", step_type := StepType.research,
      execution_res := none }
    { title := "s2", description := "d2", step_type := StepType.processing,
      execution_res := none }
    rfl rfl rfl rfl rfl rfl

/-- Counterexample to C5 as stated: when the first step's
`execution_res` is set to the empty string (a set, non-`None` value per
the data model), the router still selects the researcher for it instead
of routing to the coder, because Python truthiness treats `""` as
pending. -/
theorem C5_counterexample :
    (Step.execution_res
      { title := "s1", description := "d1", step_type := StepType.research,
        execution_res := some "" } ≠ none) ∧
    research_team_node
      { messages := []
        current_plan := PlanVal.plan
          { has_enough_context := false, thought := "th", title := "ti",
            steps := [{ title := "s1", description := "d1",
                        step_type := StepType.research, execution_res := some "" },
                      { title := "s2", description := "d2",
                        step_type := StepType.processing, execution_res := none }] }
        plan_iterations := 0, observations := [], final_report := ""
        human_feedback := false } = Except.ok Node.researcher ∧
    (Except.ok Node.researcher ≠ (Except.ok Node.coder : Except String Node)) :=
  ⟨by simp, rfl, by simp⟩

/-- C9 (amended): on a plan with a pending (falsy `execution_res`) step
and a non-empty agent response, the executor succeeds, returns to the
router, appends exactly one observation and one agent message, writes
the response into exactly the first pending step (which thereby becomes
non-empty), and leaves every other step unchanged. -/
theorem C9_executor_first_pending :
    ∀ (st : GState) (p : Plan) (agent resp : String) (j : Nat) (hj : j < p.steps.length),
      st.current_plan = PlanVal.plan p →
      resFalsy (p.steps[j]).execution_res = true →
      (∀ (i : Nat) (hi : i < p.steps.length), i < j →
        resFalsy (p.steps[i]).execution_res = false) →
      resp ≠ "" →
      ∃ st', execute_agent_step st agent resp = Except.ok (st', Node.research_team) ∧
        st'.observations = st.observations ++ [resp] ∧
        st'.messages = st.messages ++
          [{ role := "human", content := resp, name := some agent }] ∧
        ∃ p', st'.current_plan = PlanVal.plan p' ∧
          p'.steps[j]? = some { p.steps[j] with execution_res := some resp } ∧
          resFalsy (some resp) = false ∧
          (∀ i : Nat, i ≠ j → p'.steps[i]? = p.steps[i]?) := by
  intro st p agent resp j hj hcp hfal hbefore hne
  have hmem : p.steps[j] ∈ p.steps := List.getElem_mem hj
  have hsome : (p.steps.find? (fun s => resFalsy s.execution_res)).isSome := by
    rw [List.find?_isSome]
    exact ⟨p.steps[j], hmem, hfal⟩
  obtain ⟨w, hw⟩ := Option.isSome_iff_exists.mp hsome
  refine ⟨{ st with
      current_plan := PlanVal.plan { p with steps := setFirstPending p.steps resp }
      messages := st.messages ++ [{ role := "human", content := resp, name := some agent }]
      observations := st.observations ++ [resp] }, ?_, rfl, rfl, ?_⟩
  · unfold execute_agent_step
    rw [hcp]
    dsimp only
    rw [hw]
  · refine ⟨{ p with steps := setFirstPending p.steps resp }, rfl, ?_, ?_, ?_⟩
    · exact setFirstPending_writes_first p.steps resp j hj hfal hbefore
    · simpa [resFalsy] using hne
    · exact setFirstPending_untouched p.steps resp j hj hfal hbefore

/-- Witness for C9 (amended): a concrete one-step plan executed with a
non-empty response. -/
theorem C9_executor_first_pending_witness :
    ∃ st', execute_agent_step
      { messages := []
        current_plan := PlanVal.plan
          { has_enough_context := false, thought := "th", title := "ti",
            steps := [{ title := "t", description := "d",
                        step_type := StepType.research, execution_res := none }] }
        plan_iterations := 0, observations := [], final_report := ""
        human_feedback := false }
      ("researcher") ("found it") = Except.ok (st', Node.research_team) ∧
      st'.observations = [] ++ ["found it"] ∧
      st'.messages = [] ++
        [{ role := "human", content := "found it", name := some ("researcher") }] ∧
      ∃ p', st'.current_plan = PlanVal.plan p' ∧
        p'.steps[0]? = some { title := "t", description := "d",
                              step_type := StepType.research,
                              execution_res := some "found it" } ∧
        resFalsy (some "found it") = false ∧
        (∀ i : Nat, i ≠ 0 → p'.steps[i]? =
          [{ title := "t", description := "d", step_type := StepType.research,
             execution_res := (none : Option String) }][i]?) :=
  C9_executor_first_pending
    { messages := []
      current_plan := PlanVal.plan
        { has_enough_context := false, thought := "th", title := "ti",
          steps := [{ title := "t", description := "d",
                      step_type := StepType.research, execution_res := none }] }
      plan_iterations := 0, observations := [], final_report := ""
      human_feedback := false }
    { has_enough_context := false, thought := "th", title := "ti",
      steps := [{ title := "t", description := "d",
                  step_type := StepType.research, execution_res := none }] }
    ("researcher") ("found it") 0 (by decide) rfl (by decide)
    (fun i hi hlt => absurd hlt (Nat.not_lt_zero i)) (by decide)

/-- Counterexample to C9 as stated: a successful invocation whose agent
response is the empty string leaves no step with a non-empty
`execution_res` (the pending step is set to `""`), so it is not the case
that exactly one step's result becomes non-empty. -/
theorem C9_counterexample :
    execute_agent_step
      { messages := []
        current_plan := PlanVal.plan
          { has_enough_context := false, thought := "th", title := "ti",
            steps := [{ title := "t", description := "d",
                        step_type := StepType.research, execution_res := none }] }
        plan_iterations := 0, observations := [], final_report := ""
        human_feedback := false }
      ("researcher") ("")
      = Except.ok
        ({ messages := [{ role := "human", content := "", name := some ("researcher") }]
           current_plan := PlanVal.plan
            { has_enough_context := false, thought := "th", title := "ti",
              steps := [{ title := "t", description := "d",
                          step_type := StepType.research, execution_res := some "" }] }
           plan_iterations := 0, observations := [""], final_report := ""
           human_feedback := false },
          Node.research_team) ∧
    List.countP (fun s : Step => !resFalsy s.execution_res)
      [{ title := "t", description := "d", step_type := StepType.research,
         execution_res := some "" }] = 0 ∧
    (0 : Nat) ≠ 1 :=
  ⟨rfl, by decide, by decide⟩

/-- Reading `plan_iterations` through Python truthiness is the identity. -/
theorem pyIterRead_eq (n : Nat) : pyIterRead n = n := by
  unfold pyIterRead
  split <;> omega

/-- C8 (amended): on a JSON parse failure of the plan text,
`planner_node` transitions to `reporter` when the state's
`plan_iterations` is positive and to `end` when it is zero, leaving the
state unchanged; `human_feedback_node` on a parse failure always
transitions to `reporter` (its local iteration counter is incremented
before parsing, so it is always positive), likewise leaving the state
unchanged. -/
theorem C8_invalid_json_recovery :
    (∀ (m : Nat) (st : GState) (e : Env),
      st.plan_iterations < m → e.plannerParsed = none → st.plan_iterations > 0 →
      planner_node m st e =
        Except.ok { st := st, goto := Node.reporter, invoked_llm := true })
  ∧ (∀ (m : Nat) (st : GState) (e : Env),
      st.plan_iterations < m → e.plannerParsed = none → st.plan_iterations = 0 →
      planner_node m st e =
        Except.ok { st := st, goto := Node.end_, invoked_llm := true })
  ∧ (∀ (st : GState) (e : Env),
      ¬(st.human_feedback = true ∧ e.feedbackText ≠ "" ∧
        (e.feedbackText.toUpper.startsWith ("[EDIT_PLAN]")) = true) →
      e.feedbackParsed = none →
      human_feedback_node st e = Except.ok (st, Node.reporter)) := by
  refine ⟨?_, ?_, ?_⟩
  · intro m st e hlt hparsed hpos
    unfold planner_node
    rw [pyIterRead_eq, if_neg (Nat.not_le.mpr hlt), hparsed]
    dsimp only
    rw [if_pos hpos]
  · intro m st e hlt hparsed hzero
    unfold planner_node
    rw [pyIterRead_eq, if_neg (Nat.not_le.mpr hlt), hparsed]
    dsimp only
    rw [if_neg (by omega)]
  · intro st e hguard hparsed
    unfold human_feedback_node
    rw [if_neg hguard, hparsed]
    dsimp only
    rw [if_pos (Nat.succ_pos _)]

/-- Witness for C8 (amended): concrete parse failures in both nodes. -/
theorem C8_invalid_json_recovery_witness :
    planner_node 3
      { messages := [], current_plan := PlanVal.none_, plan_iterations := 1,
        observations := [], final_report := "", human_feedback := false }
      { coordHasToolCalls := false, coordContent := "", plannerResp := "not json",
        plannerParsed := none, feedbackText := "", feedbackParsed := none,
        modifierParsed := none, agentResp := "", reporterResp := "" } =
      Except.ok
        (PlannerRes.mk
          { messages := [], current_plan := PlanVal.none_, plan_iterations := 1,
            observations := [], final_report := "", human_feedback := false }
          Node.reporter true) ∧
    human_feedback_node
      { messages := [], current_plan := PlanVal.raw ("not json"), plan_iterations := 2,
        observations := [], final_report := "", human_feedback := false }
      { coordHasToolCalls := false, coordContent := "", plannerResp := "",
        plannerParsed := none, feedbackText := "", feedbackParsed := none,
        modifierParsed := none, agentResp := "", reporterResp := "" } =
      Except.ok
        ({ messages := [], current_plan := PlanVal.raw ("not json"), plan_iterations := 2,
           observations := [], final_report := "", human_feedback := false },
          Node.reporter) := by
  constructor
  · exact C8_invalid_json_recovery.1 3 _ _ (by decide) rfl (by decide)
  · exact C8_invalid_json_recovery.2.2 _ _ (by simp) rfl

/-- Counterexample to C8 as stated: `human_feedback_node` entered with
`plan_iterations = 0` and unparseable plan text transitions to
`reporter`, not to `end` as the claim requires, because the node
increments its local iteration counter before the parse. -/
theorem C8_counterexample :
    human_feedback_node
      { messages := [], current_plan := PlanVal.raw ("not json"), plan_iterations := 0,
        observations := [], final_report := "", human_feedback := false }
      { coordHasToolCalls := false, coordContent := "", plannerResp := "",
        plannerParsed := none, feedbackText := "", feedbackParsed := none,
        modifierParsed := none, agentResp := "", reporterResp := "" } =
      Except.ok
        ({ messages := [], current_plan := PlanVal.raw ("not json"), plan_iterations := 0,
           observations := [], final_report := "", human_feedback := false },
          Node.reporter) ∧
    Node.reporter ≠ Node.end_ := by
  constructor
  · exact C8_invalid_json_recovery.2.2 _ _ (by simp) rfl
  · decide

/-- C10 (confirmed): an empty `user_input` makes
`run_agent_workflow_async` raise `ValueError` before yielding any event;
a non-empty `user_input` never triggers that entry-point error. -/
theorem C10_empty_input_rejected :
    (∀ (hf : Bool) (snaps : List (List String × GState)) (outcome : Outcome)
        (rep : Except String String),
      run_agent_workflow_async ("") hf snaps outcome rep =
        Except.error ("Input could not be empty"))
  ∧ (∀ (u : String) (hf : Bool) (snaps : List (List String × GState))
        (outcome : Outcome) (rep : Except String String), u ≠ "" →
      ∃ evs, run_agent_workflow_async u hf snaps outcome rep = Except.ok evs) := by
  constructor
  · intro hf snaps outcome rep
    unfold run_agent_workflow_async
    rw [if_pos rfl]
  · intro u hf snaps outcome rep hu
    unfold run_agent_workflow_async
    rw [if_neg hu]
    cases outcome with
    | completed => exact ⟨_, rfl⟩
    | failed m =>
      dsimp only
      by_cases hc : containsRecursionLimit m = true
      · rw [if_pos hc]
        exact ⟨_, rfl⟩
      · rw [if_neg hc]
        exact ⟨_, rfl⟩

/-- Witness for C10: the empty input fails, the input `"q"` does not. -/
theorem C10_empty_input_rejected_witness :
    run_agent_workflow_async ("") false [] Outcome.completed (Except.ok ("r")) =
      Except.error ("Input could not be empty") ∧
    ∃ evs, run_agent_workflow_async ("q") false [] Outcome.completed (Except.ok ("r")) =
      Except.ok evs :=
  ⟨C10_empty_input_rejected.1 false [] Outcome.completed (Except.ok ("r")),
   C10_empty_input_rejected.2 "q" false [] Outcome.completed (Except.ok ("r")) (by decide)⟩

/-- Witness for C7: a concrete object missing every field fails
validation, and the canonical step-type strings parse. -/
theorem C7_plan_validation_strict_witness :
    (∃ e, Plan.model_validate (Json.obj []) = Except.error e) ∧
    parseStepType (Json.s ("research")) = Except.ok StepType.research := by
  constructor
  · exact C7_plan_validation_strict.1 [] rfl
  · exact (C7_plan_validation_strict.2.2.2.2 (Json.s ("research")) StepType.research).mpr
      (Or.inl ⟨rfl, rfl⟩)

/-! ## Shape of the events produced by each driver block -/

/-- The plan block only produces `plan` or `error` events. -/
theorem planBlock_events_shape (flag : Bool) (pv : PlanVal) :
    ∀ ev ∈ (planBlock flag pv).1,
      (∃ j, ev = Event.plan j) ∨ (∃ m, ev = Event.error m) := by
  intro ev hev
  unfold planBlock at hev
  split at hev
  · split at hev
    · simp at hev
      exact Or.inr ⟨_, hev⟩
    · split at hev
      · simp at hev
      · simp at hev
        exact Or.inl ⟨_, hev⟩
  · simp at hev

/-- The plan-steps loop only produces `execution_res` events. -/
theorem execLoopPlan_events_shape (steps : List Step) :
    ∀ (yielded : List Json) (ev : Event), ev ∈ (execLoopPlan steps yielded).1 →
      ∃ t c, ev = Event.execution_res t c := by
  induction steps with
  | nil => intro y ev hev; simp [execLoopPlan] at hev
  | cons st rest ih =>
    intro y ev hev
    unfold execLoopPlan at hev
    dsimp only at hev
    split at hev
    · simp only [List.mem_cons] at hev
      rcases hev with rfl | hev
      · exact ⟨_, _, rfl⟩
      · exact ih _ ev hev
    · exact ih _ ev hev

/-- The dict-steps loop only produces `execution_res` events. -/
theorem execLoopDict_events_shape (xs : List Json) :
    ∀ (yielded : List Json) (ev : Event), ev ∈ (execLoopDict xs yielded).1 →
      ∃ t c, ev = Event.execution_res t c := by
  induction xs with
  | nil => intro y ev hev; simp [execLoopDict] at hev
  | cons x rest ih =>
    intro y ev hev
    cases x with
    | obj kvs =>
      unfold execLoopDict at hev
      dsimp only at hev
      split at hev
      · simp only [List.mem_cons] at hev
        rcases hev with rfl | hev
        · exact ⟨_, _, rfl⟩
        · exact ih _ ev hev
      · exact ih _ ev hev
    | null => simp [execLoopDict] at hev
    | b v => simp [execLoopDict] at hev
    | i n => simp [execLoopDict] at hev
    | s v => simp [execLoopDict] at hev
    | arr ys => simp [execLoopDict] at hev

/-- The `execution_res` block only produces `execution_res` or `error`
events. -/
theorem execBlock_events_shape (pv : PlanVal) (y : List Json) :
    ∀ ev ∈ (execBlock pv y).1,
      (∃ t c, ev = Event.execution_res t c) ∨ (∃ m, ev = Event.error m) := by
  intro ev hev
  unfold execBlock at hev
  by_cases htr : planvalTruthy pv = true
  · rw [if_pos htr] at hev
    rcases hu : unwrapOnce pv with _ | s | p | j
    · rw [hu] at hev; simp at hev
    · rw [hu] at hev; simp at hev
    · rw [hu] at hev
      dsimp only at hev
      exact Or.inl (execLoopPlan_events_shape _ _ ev hev)
    · rw [hu] at hev
      cases j with
      | obj kvs =>
        dsimp only at hev
        rcases hlk : jlookup kvs ("steps") with _ | v
        · rw [hlk] at hev; simp at hev
        · rw [hlk] at hev
          cases v with
          | arr xs =>
            dsimp only at hev
            rcases hld : execLoopDict xs y with ⟨evs, y2, err⟩
            rw [hld] at hev
            cases err with
            | none =>
              dsimp only at hev
              refine Or.inl (execLoopDict_events_shape xs y ev ?_)
              rw [hld]
              exact hev
            | some m =>
              dsimp only at hev
              rw [List.mem_append] at hev
              rcases hev with hev | hev
              · refine Or.inl (execLoopDict_events_shape xs y ev ?_)
                rw [hld]
                exact hev
              · simp at hev
                exact Or.inr ⟨_, hev⟩
          | s t =>
            dsimp only at hev
            split at hev
            · simp at hev
            · simp at hev
              exact Or.inr ⟨_, hev⟩
          | obj kv2 =>
            dsimp only at hev
            split at hev
            · simp at hev
            · simp at hev
              exact Or.inr ⟨_, hev⟩
          | null =>
            simp at hev
            exact Or.inr ⟨_, hev⟩
          | b bv =>
            simp at hev
            exact Or.inr ⟨_, hev⟩
          | i n =>
            simp at hev
            exact Or.inr ⟨_, hev⟩
      | null => simp at hev
      | b bv => simp at hev
      | i n => simp at hev
      | s sv => simp at hev
      | arr ys => simp at hev
  · rw [if_neg htr] at hev
    simp at hev

/-- No message content among tool events. -/
theorem msgEventsOf_tool (te : List String) : msgEventsOf (te.map Event.tool) = [] := by
  induction te with
  | nil => rfl
  | cons t rest ih =>
    rw [List.map_cons, msgEventsOf, List.filterMap_cons]
    exact ih

/-- Message events of a mapped message list recover that list. -/
theorem msgEventsOf_map_message (l : List Msg) :
    msgEventsOf (l.map (fun m => Event.message (serialize_message m))) = l := by
  induction l with
  | nil => rfl
  | cons m rest ih => simpa [msgEventsOf, serialize_message, List.filterMap_cons] using ih

/-- Message extraction distributes over append. -/
theorem msgEventsOf_append (a b : List Event) :
    msgEventsOf (a ++ b) = msgEventsOf a ++ msgEventsOf b :=
  List.filterMap_append a b _

/-- No message content among plan-block events. -/
theorem msgEventsOf_planBlock (flag : Bool) (pv : PlanVal) :
    msgEventsOf (planBlock flag pv).1 = [] := by
  rw [msgEventsOf, List.filterMap_eq_nil_iff]
  intro ev hev
  rcases planBlock_events_shape flag pv ev hev with ⟨j, rfl⟩ | ⟨m, rfl⟩ <;> rfl

/-- No message content among exec-block events. -/
theorem msgEventsOf_execBlock (pv : PlanVal) (y : List Json) :
    msgEventsOf (execBlock pv y).1 = [] := by
  rw [msgEventsOf, List.filterMap_eq_nil_iff]
  intro ev hev
  rcases execBlock_events_shape pv y ev hev with ⟨t, c, rfl⟩ | ⟨m, rfl⟩ <;> rfl

/-- No message content in the final-report check's events. -/
theorem msgEventsOf_final_if (c : Prop) [Decidable c] (r : String) :
    msgEventsOf (if c then [Event.final_report r] else []) = [] := by
  split <;> rfl

/-- Message events of one snapshot iteration are exactly the newly
appended messages, and the counter advances to the observed length. -/
theorem processSnapshot_msg (d : DrvSt) (te : List String) (s : GState) :
    msgEventsOf (processSnapshot d te s).1 =
      (if s.messages.length > d.last_message_cnt
        then s.messages.drop d.last_message_cnt else []) ∧
    (processSnapshot d te s).2.last_message_cnt =
      (if s.messages.length > d.last_message_cnt
        then s.messages.length else d.last_message_cnt) := by
  unfold processSnapshot
  dsimp only
  by_cases hg : s.messages.length > d.last_message_cnt
  · simp only [if_pos hg]
    split
    · constructor
      · rw [msgEventsOf_append, msgEventsOf_append, msgEventsOf_tool,
          msgEventsOf_planBlock, msgEventsOf_map_message]
        simp
      · rfl
    · split
      · constructor
        · rw [msgEventsOf_append, msgEventsOf_append, msgEventsOf_append,
            msgEventsOf_tool, msgEventsOf_planBlock, msgEventsOf_execBlock,
            msgEventsOf_map_message]
          simp
        · rfl
      · constructor
        · rw [msgEventsOf_append, msgEventsOf_append, msgEventsOf_append,
            msgEventsOf_append, msgEventsOf_tool, msgEventsOf_planBlock,
            msgEventsOf_execBlock, msgEventsOf_map_message, msgEventsOf_final_if]
          simp
        · rfl
  · simp only [if_neg hg]
    split
    · constructor
      · rw [msgEventsOf_append, msgEventsOf_append, msgEventsOf_tool,
          msgEventsOf_planBlock]
        simp [msgEventsOf]
      · rfl
    · split
      · constructor
        · rw [msgEventsOf_append, msgEventsOf_append, msgEventsOf_append,
            msgEventsOf_tool, msgEventsOf_planBlock, msgEventsOf_execBlock]
          simp [msgEventsOf]
        · rfl
      · constructor
        · rw [msgEventsOf_append, msgEventsOf_append, msgEventsOf_append,
            msgEventsOf_append, msgEventsOf_tool, msgEventsOf_planBlock,
            msgEventsOf_execBlock, msgEventsOf_final_if]
          simp [msgEventsOf]
        · rfl

/-- In an append-only chain, the last snapshot extends the base. -/
theorem msgChain_last_ext (snaps : List (List String × GState)) :
    ∀ (base : List Msg), msgChain base snaps →
      ∀ p, snaps.getLast? = some p → ∃ u, p.2.messages = base ++ u := by
  induction snaps with
  | nil => intro base h p hp; cases hp
  | cons snap rest ih =>
    intro base h p hp
    rcases h with ⟨⟨t, hext⟩, hrest⟩
    cases rest with
    | nil =>
      have hps : p = snap := by
        simpa using hp.symm
      subst hps
      exact ⟨t, hext⟩
    | cons b bs =>
      rw [List.getLast?_cons_cons] at hp
      obtain ⟨u, hu⟩ := ih _ hrest p hp
      exact ⟨t ++ u, by rw [hu, hext, List.append_assoc]⟩

/-- Message events accumulated by the driver fold: with an append-only
snapshot chain, the run's message events are exactly the suffix of the
last snapshot's message log past the starting counter. -/
theorem driverFold_msgEvents (snaps : List (List String × GState)) :
    ∀ (evs0 : List Event) (d : DrvSt) (g : GState) (prev : List Msg),
      d.last_message_cnt = prev.length →
      msgChain prev snaps →
      msgEventsOf (snaps.foldl driverStep (evs0, d, g)).1 =
        msgEventsOf evs0 ++
          (((snaps.getLast?).map (fun p => p.2.messages)).getD prev).drop prev.length := by
  induction snaps with
  | nil =>
    intro evs0 d g prev hcnt hchain
    simp [List.drop_length]
  | cons snap rest ih =>
    intro evs0 d g prev hcnt hchain
    rcases hchain with ⟨⟨t, hext⟩, hrest⟩
    rw [List.foldl_cons]
    have hmsg := (processSnapshot_msg d snap.1 snap.2).1
    have hcnt1 := (processSnapshot_msg d snap.1 snap.2).2
    have hlen : snap.2.messages.length = prev.length + t.length := by
      rw [hext]
      simp
    have hcnt' : (processSnapshot d snap.1 snap.2).2.last_message_cnt =
        snap.2.messages.length := by
      rw [hcnt1]
      by_cases hg : snap.2.messages.length > d.last_message_cnt
      · rw [if_pos hg]
      · rw [if_neg hg]
        omega
    have hm1 : msgEventsOf (processSnapshot d snap.1 snap.2).1 = t := by
      rw [hmsg]
      by_cases hg : snap.2.messages.length > d.last_message_cnt
      · rw [if_pos hg, hcnt, hext, List.drop_left]
      · rw [if_neg hg]
        have ht : t = [] := by
          rw [hcnt] at hg
          have hle : prev.length + t.length ≤ prev.length := by omega
          have : t.length = 0 := by omega
          exact List.length_eq_zero.mp this
        rw [ht]
    have hstep : driverStep (evs0, d, g) snap =
        (evs0 ++ (processSnapshot d snap.1 snap.2).1,
          (processSnapshot d snap.1 snap.2).2, snap.2) := rfl
    rw [hstep]
    rw [ih (evs0 ++ (processSnapshot d snap.1 snap.2).1)
      (processSnapshot d snap.1 snap.2).2 snap.2 snap.2.messages hcnt' hrest]
    rw [msgEventsOf_append, hm1]
    cases rest with
    | nil =>
      simp [List.drop_length, hext, List.drop_left]
    | cons b bs =>
      rw [List.getLast?_cons_cons]
      have hne : (b :: bs).getLast?.isSome := by
        rw [List.getLast?_isSome]
        simp
      obtain ⟨q, hq⟩ := Option.isSome_iff_exists.mp hne
      rw [hq]
      obtain ⟨u, hu⟩ := msgChain_last_ext (b :: bs) snap.2.messages hrest q hq
      simp only [Option.map_some', Option.getD_some]
      rw [hu, List.drop_left, hext, List.append_assoc prev t u, List.drop_left,
        List.append_assoc]

/-- C4 (amended): over a run on an append-only snapshot chain, the
driver's `message` events carry exactly the final observed State's whole
message list, in order, each exactly once — the counter starts at zero,
so the count equals the length of the final State's messages (not that
length minus the initial State's message count: the initial user message
is re-emitted too). -/
theorem C4_message_stream (u : String) (hf : Bool)
    (snaps : List (List String × GState)) (outcome : Outcome)
    (rep : Except String String) (evs : List Event)
    (hu : u ≠ "") (hchain : msgChain [] snaps)
    (hrun : run_agent_workflow_async u hf snaps outcome rep = Except.ok evs) :
    msgEventsOf evs = ((snaps.getLast?).map (fun p => p.2.messages)).getD [] := by
  unfold run_agent_workflow_async at hrun
  rw [if_neg hu] at hrun
  dsimp only at hrun
  have hfold := driverFold_msgEvents snaps [] ⟨0, false, []⟩ (initialState u hf) [] rfl hchain
  simp only [show msgEventsOf ([] : List Event) = [] from rfl, List.nil_append,
    List.length_nil, List.drop_zero] at hfold
  cases outcome with
  | completed =>
    injection hrun with h
    rw [← h]
    exact hfold
  | failed m =>
    dsimp only at hrun
    by_cases hc : containsRecursionLimit m = true
    · rw [if_pos hc] at hrun
      injection hrun with h
      rw [← h, msgEventsOf_append, hfold]
      simp [msgEventsOf]
    · rw [if_neg hc] at hrun
      injection hrun with h
      rw [← h, msgEventsOf_append, hfold]
      simp [msgEventsOf]

/-- Witness for C4 (amended): one snapshot equal to the initial state
emits exactly the initial user message. -/
theorem C4_message_stream_witness :
    msgEventsOf [Event.message { role := "user", content := "q", name := none }] =
      (((([([], initialState ("q") false)] :
          List (List String × GState)).getLast?).map (fun p => p.2.messages)).getD []) :=
  C4_message_stream ("q") false [([], initialState ("q") false)] Outcome.completed
    (Except.ok ("r")) [Event.message { role := "user", content := "q", name := none }]
    (by decide) ⟨⟨[{ role := "user", content := "q", name := none }], rfl⟩, trivial⟩ rfl

/-- Counterexample to C4 as stated: with the single observed snapshot
equal to the initial state, the driver yields one `message` event (the
initial user message, because `last_message_cnt` starts at 0), while the
claim predicts `len(final messages) - len(initial messages) = 0` events. -/
theorem C4_counterexample :
    run_agent_workflow_async ("q") false [([], initialState ("q") false)]
      Outcome.completed (Except.ok ("r")) =
      Except.ok [Event.message { role := "user", content := "q", name := none }] ∧
    (msgEventsOf [Event.message { role := "user", content := "q", name := none }]).length = 1 ∧
    (initialState ("q") false).messages.length -
      (initialState ("q") false).messages.length = 0 ∧
    (1 : Nat) ≠ 0 :=
  ⟨rfl, rfl, rfl, by decide⟩

/-! ## Plan events: uniqueness and validity (C6 groundwork) -/

/-- Plan extraction distributes over append. -/
theorem planEventsOf_append (a b : List Event) :
    planEventsOf (a ++ b) = planEventsOf a ++ planEventsOf b :=
  List.filterMap_append a b _

/-- No plan payload among tool events. -/
theorem planEventsOf_tool (te : List String) : planEventsOf (te.map Event.tool) = [] := by
  induction te with
  | nil => rfl
  | cons t rest ih =>
    rw [List.map_cons, planEventsOf, List.filterMap_cons]
    exact ih

/-- No plan payload among message events. -/
theorem planEventsOf_map_message (l : List Msg) :
    planEventsOf (l.map (fun m => Event.message (serialize_message m))) = [] := by
  induction l with
  | nil => rfl
  | cons m rest ih =>
    rw [List.map_cons, planEventsOf, List.filterMap_cons]
    exact ih

/-- No plan payload among exec-block events. -/
theorem planEventsOf_execBlock (pv : PlanVal) (y : List Json) :
    planEventsOf (execBlock pv y).1 = [] := by
  rw [planEventsOf, List.filterMap_eq_nil_iff]
  intro ev hev
  rcases execBlock_events_shape pv y ev hev with ⟨t, c, rfl⟩ | ⟨m, rfl⟩ <;> rfl

/-- No plan payload in the final-report check's events. -/
theorem planEventsOf_final_if (c : Prop) [Decidable c] (r : String) :
    planEventsOf (if c then [Event.final_report r] else []) = [] := by
  split <;> rfl

/-- A plan block that already yielded does nothing. -/
theorem planBlock_yielded (pv : PlanVal) : planBlock true pv = ([], true, false) := rfl

/-- On a candidate plan, the plan block emits exactly its payload and
sets the flag. -/
theorem planBlock_candidate {pv : PlanVal} (hc : planCandidate pv = true) :
    ∃ j, planPayload pv = some j ∧ jHasKey j ("error") = false ∧
      planBlock false pv = ([Event.plan j], true, false) := by
  unfold planCandidate at hc
  rw [Bool.and_eq_true] at hc
  obtain ⟨htr, hrest⟩ := hc
  cases hser : serialize_plan (unwrapOnce pv) with
  | ok j =>
    rw [hser] at hrest
    dsimp only at hrest
    have hkey : jHasKey j ("error") = false := by
      simpa using hrest
    refine ⟨j, ?_, hkey, ?_⟩
    · unfold planPayload
      rw [hser]
    · unfold planBlock
      rw [if_pos (by simp [htr] : (!false && planvalTruthy pv) = true)]
      rw [hser]
      dsimp only
      rw [if_neg (by simp [hkey])]
  | error m =>
    rw [hser] at hrest
    cases hrest

/-- On a non-candidate plan value, the plan block emits no plan event
and leaves the flag unset. -/
theorem planBlock_not_candidate {pv : PlanVal} (hc : planCandidate pv = false) :
    planEventsOf (planBlock false pv).1 = [] ∧
      (planBlock false pv).2.1 = false := by
  unfold planCandidate at hc
  by_cases htr : planvalTruthy pv = true
  · rw [Bool.and_eq_false_iff] at hc
    rcases hc with hc | hc
    · rw [htr] at hc
      cases hc
    · unfold planBlock
      rw [if_pos (by simp [htr] : (!false && planvalTruthy pv) = true)]
      cases hser : serialize_plan (unwrapOnce pv) with
      | ok j =>
        rw [hser] at hc
        dsimp only at hc
        dsimp only
        have hkey : jHasKey j ("error") = true := by
          simpa using hc
        rw [if_pos hkey]
        exact ⟨rfl, rfl⟩
      | error m =>
        dsimp only
        exact ⟨rfl, rfl⟩
  · have hf : planvalTruthy pv = false := by
      revert htr
      cases planvalTruthy pv <;> simp
    unfold planBlock
    rw [if_neg (by simp [hf])]
    exact ⟨rfl, rfl⟩

/-- No plan payload in the (conditional) message-delta events. -/
theorem planEventsOf_msg_if (c : Prop) [Decidable c] (l : List Msg) :
    planEventsOf
      (if c then l.map (fun m => Event.message (serialize_message m)) else []) = [] := by
  split
  · exact planEventsOf_map_message l
  · rfl

/-- Plan events of one snapshot: none once the flag is set (and the flag
stays set). -/
theorem processSnapshot_plan_done (d : DrvSt) (te : List String) (s : GState)
    (hflag : d.current_plan_yielded = true) :
    planEventsOf (processSnapshot d te s).1 = [] ∧
      (processSnapshot d te s).2.current_plan_yielded = true := by
  unfold processSnapshot
  dsimp only
  rw [hflag, planBlock_yielded]
  rw [if_neg (by simp : ¬(false = true))]
  split
  · constructor
    · rw [planEventsOf_append, planEventsOf_append, planEventsOf_append,
        planEventsOf_tool, planEventsOf_msg_if, planEventsOf_execBlock]
      rfl
    · rfl
  · constructor
    · rw [planEventsOf_append, planEventsOf_append, planEventsOf_append,
        planEventsOf_append, planEventsOf_tool, planEventsOf_msg_if,
        planEventsOf_execBlock, planEventsOf_final_if]
      rfl
    · rfl

/-- Plan events of one snapshot with the flag unset: exactly the
payload when the snapshot's plan is a candidate (setting the flag),
none otherwise (leaving the flag unset). -/
theorem processSnapshot_plan_new (d : DrvSt) (te : List String) (s : GState)
    (hflag : d.current_plan_yielded = false) :
    (planCandidate s.current_plan = true →
      ∃ j, planPayload s.current_plan = some j ∧
        planEventsOf (processSnapshot d te s).1 = [j] ∧
        (processSnapshot d te s).2.current_plan_yielded = true)
  ∧ (planCandidate s.current_plan = false →
      planEventsOf (processSnapshot d te s).1 = [] ∧
      (processSnapshot d te s).2.current_plan_yielded = false) := by
  constructor
  · intro hc
    obtain ⟨j, hpay, hkey, hblk⟩ := planBlock_candidate hc
    refine ⟨j, hpay, ?_⟩
    unfold processSnapshot
    dsimp only
    rw [hflag, hblk]
    rw [if_neg (by simp : ¬(false = true))]
    split
    · constructor
      · rw [planEventsOf_append, planEventsOf_append, planEventsOf_append,
          planEventsOf_tool, planEventsOf_msg_if, planEventsOf_execBlock]
        rfl
      · rfl
    · constructor
      · rw [planEventsOf_append, planEventsOf_append, planEventsOf_append,
          planEventsOf_append, planEventsOf_tool, planEventsOf_msg_if,
          planEventsOf_execBlock, planEventsOf_final_if]
        rfl
      · rfl
  · intro hc
    have hnc := planBlock_not_candidate hc
    rcases hpb : planBlock false s.current_plan with ⟨pevs, pflag, pabort⟩
    rw [hpb] at hnc
    obtain ⟨hnil, hfl⟩ := hnc
    dsimp only at hnil hfl
    subst hfl
    unfold processSnapshot
    dsimp only
    rw [hflag, hpb]
    cases pabort with
    | true =>
      rw [if_pos rfl]
      constructor
      · rw [planEventsOf_append, planEventsOf_append, planEventsOf_tool,
          planEventsOf_msg_if, hnil]
        rfl
      · rfl
    | false =>
      rw [if_neg (by simp : ¬(false = true))]
      split
      · constructor
        · rw [planEventsOf_append, planEventsOf_append, planEventsOf_append,
            planEventsOf_tool, planEventsOf_msg_if, hnil, planEventsOf_execBlock]
          rfl
        · rfl
      · constructor
        · rw [planEventsOf_append, planEventsOf_append, planEventsOf_append,
            planEventsOf_append, planEventsOf_tool, planEventsOf_msg_if, hnil,
            planEventsOf_execBlock, planEventsOf_final_if]
          rfl
        · rfl

/-- Once the plan flag is set, the rest of the fold emits no plan
events. -/
theorem driverFold_plan_done (snaps : List (List String × GState)) :
    ∀ (evs0 : List Event) (d : DrvSt) (g : GState),
      d.current_plan_yielded = true →
      planEventsOf (snaps.foldl driverStep (evs0, d, g)).1 = planEventsOf evs0 := by
  induction snaps with
  | nil => intro evs0 d g _; rfl
  | cons snap rest ih =>
    intro evs0 d g hflag
    rw [List.foldl_cons]
    obtain ⟨hnil, hflag'⟩ := processSnapshot_plan_done d snap.1 snap.2 hflag
    have hstep : driverStep (evs0, d, g) snap =
        (evs0 ++ (processSnapshot d snap.1 snap.2).1,
          (processSnapshot d snap.1 snap.2).2, snap.2) := rfl
    rw [hstep, ih _ _ _ hflag', planEventsOf_append, hnil, List.append_nil]

/-- Plan events over the whole fold with the flag initially unset:
exactly the payload of the first candidate snapshot, if any. -/
theorem driverFold_plan (snaps : List (List String × GState)) :
    ∀ (evs0 : List Event) (d : DrvSt) (g : GState),
      d.current_plan_yielded = false →
      planEventsOf (snaps.foldl driverStep (evs0, d, g)).1 =
        planEventsOf evs0 ++
          (match snaps.find? (fun p => planCandidate p.2.current_plan) with
           | none => []
           | some p => [(planPayload p.2.current_plan).getD Json.null]) := by
  induction snaps with
  | nil =>
    intro evs0 d g _
    simp
  | cons snap rest ih =>
    intro evs0 d g hflag
    rw [List.foldl_cons]
    have hstep : driverStep (evs0, d, g) snap =
        (evs0 ++ (processSnapshot d snap.1 snap.2).1,
          (processSnapshot d snap.1 snap.2).2, snap.2) := rfl
    rw [hstep]
    cases hc : planCandidate snap.2.current_plan with
    | true =>
      obtain ⟨j, hpay, hevs, hflag'⟩ :=
        (processSnapshot_plan_new d snap.1 snap.2 hflag).1 hc
      have hfind : List.find? (fun p : List String × GState => planCandidate p.2.current_plan)
          (snap :: rest) = some snap := List.find?_cons_of_pos rest hc
      rw [hfind]
      rw [driverFold_plan_done rest _ _ _ hflag', planEventsOf_append, hevs]
      dsimp only
      rw [hpay, Option.getD_some]
    | false =>
      obtain ⟨hnil, hflag'⟩ := (processSnapshot_plan_new d snap.1 snap.2 hflag).2 hc
      have hfind : List.find? (fun p : List String × GState => planCandidate p.2.current_plan)
          (snap :: rest) =
          List.find? (fun p : List String × GState => planCandidate p.2.current_plan) rest :=
        List.find?_cons_of_neg rest (by simp [hc])
      rw [hfind]
      rw [ih _ _ _ hflag', planEventsOf_append, hnil, List.append_nil]

/-- C6 (confirmed): a run yields at most one `plan` event — emitted for
the first snapshot whose `current_plan` is truthy and serializes without
the error marker — and a plan value that fails validation (serialization
yields the error marker) is never surfaced as a `plan` event: every
emitted payload is free of the `"error"` marker key. -/
theorem C6_plan_event_unique (u : String) (hf : Bool)
    (snaps : List (List String × GState)) (outcome : Outcome)
    (rep : Except String String) (evs : List Event)
    (hu : u ≠ "")
    (hrun : run_agent_workflow_async u hf snaps outcome rep = Except.ok evs) :
    planEventsOf evs =
      (match snaps.find? (fun p => planCandidate p.2.current_plan) with
       | none => []
       | some p => [(planPayload p.2.current_plan).getD Json.null]) ∧
    (planEventsOf evs).length ≤ 1 ∧
    (∀ j ∈ planEventsOf evs, jHasKey j ("error") = false) := by
  unfold run_agent_workflow_async at hrun
  rw [if_neg hu] at hrun
  dsimp only at hrun
  have hfold := driverFold_plan snaps [] ⟨0, false, []⟩ (initialState u hf) rfl
  simp only [show planEventsOf ([] : List Event) = [] from rfl, List.nil_append] at hfold
  have hmain : planEventsOf evs =
      (match snaps.find? (fun p => planCandidate p.2.current_plan) with
       | none => []
       | some p => [(planPayload p.2.current_plan).getD Json.null]) := by
    cases outcome with
    | completed =>
      injection hrun with h
      rw [← h]
      exact hfold
    | failed m =>
      dsimp only at hrun
      by_cases hc : containsRecursionLimit m = true
      · rw [if_pos hc] at hrun
        injection hrun with h
        rw [← h, planEventsOf_append, hfold]
        simp [planEventsOf]
      · rw [if_neg hc] at hrun
        injection hrun with h
        rw [← h, planEventsOf_append, hfold]
        simp [planEventsOf]
  refine ⟨hmain, ?_, ?_⟩
  · rw [hmain]
    cases hfind : snaps.find? (fun p => planCandidate p.2.current_plan) <;>
      simp [hfind]
  · intro j hj
    rw [hmain] at hj
    cases hfind : snaps.find? (fun p => planCandidate p.2.current_plan) with
    | none =>
      rw [hfind] at hj
      simp at hj
    | some p =>
      rw [hfind] at hj
      simp only [List.mem_singleton] at hj
      have hcand : planCandidate p.2.current_plan = true := by
        have := List.find?_some hfind
        simpa using this
      obtain ⟨j', hpay, hkey, -⟩ := planBlock_candidate hcand
      rw [hj, hpay, Option.getD_some]
      exact hkey

/-- Witness for C6: a single snapshot holding a validated plan yields
exactly one plan event with the plan's serialization. -/
theorem C6_plan_event_unique_witness :
    planEventsOf [Event.plan fixturePlanJson] =
      (match ([([], fixtureState)] : List (List String × GState)).find?
          (fun p => planCandidate p.2.current_plan) with
       | none => []
       | some p => [(planPayload p.2.current_plan).getD Json.null]) ∧
    (planEventsOf [Event.plan fixturePlanJson]).length ≤ 1 ∧
    (∀ j ∈ planEventsOf [Event.plan fixturePlanJson],
      jHasKey j ("error") = false) :=
  C6_plan_event_unique ("q") false [([], fixtureState)]
    Outcome.completed (Except.ok ("r")) [Event.plan fixturePlanJson]
    (by decide) rfl

/-! ## Final-report events under budget exhaustion (C1 groundwork) -/

/-- Final-report extraction distributes over append. -/
theorem finalReportEventsOf_append (a b : List Event) :
    finalReportEventsOf (a ++ b) = finalReportEventsOf a ++ finalReportEventsOf b :=
  List.filterMap_append a b _

/-- No final-report content among tool events. -/
theorem finalReportEventsOf_tool (te : List String) :
    finalReportEventsOf (te.map Event.tool) = [] := by
  induction te with
  | nil => rfl
  | cons t rest ih =>
    rw [List.map_cons, finalReportEventsOf, List.filterMap_cons]
    exact ih

/-- No final-report content among message-delta events. -/
theorem finalReportEventsOf_msg_if (c : Prop) [Decidable c] (l : List Msg) :
    finalReportEventsOf
      (if c then l.map (fun m => Event.message (serialize_message m)) else []) = [] := by
  split
  · induction l with
    | nil => rfl
    | cons m rest ih =>
      rw [List.map_cons, finalReportEventsOf, List.filterMap_cons]
      exact ih
  · rfl

/-- No final-report content among plan-block events. -/
theorem finalReportEventsOf_planBlock (flag : Bool) (pv : PlanVal) :
    finalReportEventsOf (planBlock flag pv).1 = [] := by
  rw [finalReportEventsOf, List.filterMap_eq_nil_iff]
  intro ev hev
  rcases planBlock_events_shape flag pv ev hev with ⟨j, rfl⟩ | ⟨m, rfl⟩ <;> rfl

/-- No final-report content among exec-block events. -/
theorem finalReportEventsOf_execBlock (pv : PlanVal) (y : List Json) :
    finalReportEventsOf (execBlock pv y).1 = [] := by
  rw [finalReportEventsOf, List.filterMap_eq_nil_iff]
  intro ev hev
  rcases execBlock_events_shape pv y ev hev with ⟨t, c, rfl⟩ | ⟨m, rfl⟩ <;> rfl

/-- A snapshot whose `final_report` is empty contributes no
final-report event. -/
theorem processSnapshot_no_final (d : DrvSt) (te : List String) (s : GState)
    (h : s.final_report = "") :
    finalReportEventsOf (processSnapshot d te s).1 = [] := by
  unfold processSnapshot
  dsimp only
  split
  · rw [finalReportEventsOf_append, finalReportEventsOf_append,
      finalReportEventsOf_tool, finalReportEventsOf_msg_if,
      finalReportEventsOf_planBlock]
    rfl
  · split
    · rw [finalReportEventsOf_append, finalReportEventsOf_append,
        finalReportEventsOf_append, finalReportEventsOf_tool,
        finalReportEventsOf_msg_if, finalReportEventsOf_planBlock,
        finalReportEventsOf_execBlock]
      rfl
    · have hfin : (if s.final_report ≠ "" then [Event.final_report s.final_report]
          else []) = [] := by
        rw [if_neg (by simp [h])]
      rw [hfin, finalReportEventsOf_append, finalReportEventsOf_append,
        finalReportEventsOf_append, finalReportEventsOf_append,
        finalReportEventsOf_tool, finalReportEventsOf_msg_if,
        finalReportEventsOf_planBlock, finalReportEventsOf_execBlock]
      rfl

/-- With every observed snapshot's `final_report` empty, the fold
yields no final-report event. -/
theorem driverFold_no_final (snaps : List (List String × GState))
    (hnf : ∀ p ∈ snaps, p.2.final_report = "") :
    ∀ (evs0 : List Event) (d : DrvSt) (g : GState),
      finalReportEventsOf (snaps.foldl driverStep (evs0, d, g)).1 =
        finalReportEventsOf evs0 := by
  induction snaps with
  | nil => intro evs0 d g; rfl
  | cons snap rest ih =>
    intro evs0 d g
    rw [List.foldl_cons]
    have hstep : driverStep (evs0, d, g) snap =
        (evs0 ++ (processSnapshot d snap.1 snap.2).1,
          (processSnapshot d snap.1 snap.2).2, snap.2) := rfl
    rw [hstep, ih (fun p hp => hnf p (List.mem_cons_of_mem snap hp)) _ _ _,
      finalReportEventsOf_append,
      processSnapshot_no_final d snap.1 snap.2 (hnf snap (List.mem_cons_self snap rest)),
      List.append_nil]

/-- The fold's `last_state` is the last observed snapshot's state (the
initial state when no snapshot was observed). -/
theorem driverFold_last (snaps : List (List String × GState)) :
    ∀ (evs0 : List Event) (d : DrvSt) (g : GState),
      (snaps.foldl driverStep (evs0, d, g)).2.2 =
        ((snaps.getLast?).map (fun p => p.2)).getD g := by
  induction snaps with
  | nil => intro evs0 d g; rfl
  | cons snap rest ih =>
    intro evs0 d g
    rw [List.foldl_cons]
    have hstep : driverStep (evs0, d, g) snap =
        (evs0 ++ (processSnapshot d snap.1 snap.2).1,
          (processSnapshot d snap.1 snap.2).2, snap.2) := rfl
    rw [hstep, ih _ _ _]
    cases rest with
    | nil => rfl
    | cons b bs =>
      rw [List.getLast?_cons_cons]
      have hne : (b :: bs).getLast?.isSome := by
        rw [List.getLast?_isSome]
        simp
      obtain ⟨q, hq⟩ := Option.isSome_iff_exists.mp hne
      rw [hq]
      simp

/-- C1 (confirmed): when the graph raises a budget-exceeded (recursion
limit) condition, the driver propagates no exception — the run returns
an event stream — and that stream carries exactly one `final_report`
event, whose content is produced by invoking the reporter directly
(`handle_recursion_limit`) on the last observed State snapshot.  The
hypothesis that observed snapshots carry no `final_report` reflects that
the reporter ends the run as soon as it writes one, so a
budget-exceeded run never observed a written report. -/
theorem C1_recursion_limit_reports (u : String) (hf : Bool)
    (snaps : List (List String × GState)) (m : String)
    (rep : Except String String)
    (hu : u ≠ "") (hm : containsRecursionLimit m = true)
    (hnf : ∀ p ∈ snaps, p.2.final_report = "") :
    ∃ evs, run_agent_workflow_async u hf snaps (Outcome.failed m) rep = Except.ok evs ∧
      finalReportEventsOf evs =
        [handle_recursion_limit
          (((snaps.getLast?).map (fun p => p.2)).getD (initialState u hf)) rep] := by
  unfold run_agent_workflow_async
  rw [if_neg hu]
  dsimp only
  rw [if_pos hm]
  refine ⟨_, rfl, ?_⟩
  rw [finalReportEventsOf_append, driverFold_no_final snaps hnf _ _ _,
    driverFold_last snaps _ _ _]
  rfl

/-- Witness for C1: a concrete budget-exceeded run yields exactly the
reporter-built final report for the last snapshot. -/
theorem C1_recursion_limit_reports_witness :
    ∃ evs, run_agent_workflow_async ("q") false [([], fixtureState)]
        (Outcome.failed ("recursion limit of 15 reached")) (Except.ok ("the report")) =
        Except.ok evs ∧
      finalReportEventsOf evs =
        [handle_recursion_limit
          (((([([], fixtureState)] :
              List (List String × GState)).getLast?).map (fun p => p.2)).getD
            (initialState ("q") false)) (Except.ok ("the report"))] :=
  C1_recursion_limit_reports ("q") false [([], fixtureState)]
    ("recursion limit of 15 reached") (Except.ok ("the report"))
    (by decide) (by rfl)
    (by
      intro p hp
      simp only [List.mem_singleton] at hp
      subst hp
      rfl)

/-! ## The plan-iteration bound over whole machine runs (C3 groundwork) -/

/-- Successful planner invocations leave the counter unchanged, route to
the feedback node only below the maximum, and never route to the plan
modifier. -/
theorem planner_node_inv {m : Nat} {st : GState} {e : Env} {r : PlannerRes}
    (h : planner_node m st e = Except.ok r) :
    r.st.plan_iterations = st.plan_iterations ∧
    (r.goto = Node.feedback_node → st.plan_iterations < m) ∧
    r.goto ≠ Node.plan_modifier := by
  unfold planner_node at h
  dsimp only at h
  rw [pyIterRead_eq] at h
  split at h
  · cases h
    exact ⟨rfl, fun hc => by simp at hc, by simp⟩
  next hge =>
    have hlt : st.plan_iterations < m := Nat.not_le.mp hge
    split at h
    · split at h
      · cases h
        exact ⟨rfl, fun hc => by simp at hc, by simp⟩
      · cases h
        exact ⟨rfl, fun hc => by simp at hc, by simp⟩
    · split at h
      · split at h
        · split at h
          · cases h
            exact ⟨rfl, fun hc => by simp at hc, by simp⟩
          · cases h
        · cases h
          exact ⟨rfl, fun _ => hlt, by simp⟩
      · cases h

/-- Successful feedback-node invocations advance the counter by at most
one, and keep it unchanged whenever they loop back to the feedback or
plan-modifier nodes. -/
theorem human_feedback_node_inv {st : GState} {e : Env} {st' : GState} {n' : Node}
    (h : human_feedback_node st e = Except.ok (st', n')) :
    st'.plan_iterations ≤ st.plan_iterations + 1 ∧
    ((n' = Node.feedback_node ∨ n' = Node.plan_modifier) →
      st'.plan_iterations = st.plan_iterations) := by
  unfold human_feedback_node at h
  dsimp only at h
  rw [pyIterRead_eq] at h
  split at h
  · cases h
    exact ⟨Nat.le_succ _, fun _ => rfl⟩
  · split at h
    · split at h
      · cases h
        exact ⟨Nat.le_succ _, fun hc => by rcases hc with hc | hc <;> simp at hc⟩
      · cases h
        exact ⟨Nat.le_succ _, fun hc => by rcases hc with hc | hc <;> simp at hc⟩
    · split at h
      · split at h
        · cases h
        · split at h
          · split at h
            · cases h
              exact ⟨Nat.le_refl _, fun hc => by rcases hc with hc | hc <;> simp at hc⟩
            · cases h
              exact ⟨Nat.le_refl _, fun hc => by rcases hc with hc | hc <;> simp at hc⟩
          · cases h
      · cases h

/-- Successful plan-modifier invocations keep the counter and return to
the feedback node. -/
theorem plan_modifier_node_inv {st : GState} {e : Env} {st' : GState} {n' : Node}
    (h : plan_modifier_node st e = Except.ok (st', n')) :
    st'.plan_iterations = st.plan_iterations ∧ n' = Node.feedback_node := by
  unfold plan_modifier_node at h
  dsimp only at h
  split at h
  · cases h
    exact ⟨rfl, rfl⟩
  · split at h
    · cases h
      exact ⟨rfl, rfl⟩
    · split at h
      · cases h
        exact ⟨rfl, rfl⟩
      · cases h

/-- The research-team router only targets the planner or an agent. -/
theorem research_team_node_goto {st : GState} {g : Node}
    (h : research_team_node st = Except.ok g) :
    g = Node.planner ∨ g = Node.researcher ∨ g = Node.coder := by
  unfold research_team_node at h
  split at h
  · cases h
    exact Or.inl rfl
  · split at h
    · cases h
      exact Or.inl rfl
    · cases h
  · split at h
    · cases h
    · cases h
      exact Or.inl rfl
  · split at h
    · cases h
      exact Or.inl rfl
    · split at h
      · cases h
        exact Or.inl rfl
      · split at h
        · split at h
          · cases h
            exact Or.inr (Or.inl rfl)
          · cases h
            exact Or.inr (Or.inr rfl)
        · cases h
          exact Or.inl rfl

/-- Successful agent-step executions keep the counter and return to the
router. -/
theorem execute_agent_step_inv {st : GState} {a r : String} {st' : GState} {n' : Node}
    (h : execute_agent_step st a r = Except.ok (st', n')) :
    st'.plan_iterations = st.plan_iterations ∧ n' = Node.research_team := by
  unfold execute_agent_step at h
  split at h
  · split at h
    · cases h
      exact ⟨rfl, rfl⟩
    · cases h
      exact ⟨rfl, rfl⟩
  · cases h

/-- One machine step preserves the invariant. -/
theorem stepMachine_inv {m : Nat} {st : GState} {n : Node} {e : Env}
    {st' : GState} {n' : Node}
    (hinv : MachineInv m st n)
    (hstep : stepMachine m st n e = Except.ok (st', n')) : MachineInv m st' n' := by
  obtain ⟨hle, hfb⟩ := hinv
  cases n with
  | coordinator =>
    unfold stepMachine at hstep
    dsimp only at hstep
    unfold coordinator_node at hstep
    split at hstep
    · cases hstep
      exact ⟨hle, fun hc => by rcases hc with hc | hc <;> simp at hc⟩
    · cases hstep
      exact ⟨hle, fun hc => by rcases hc with hc | hc <;> simp at hc⟩
  | planner =>
    unfold stepMachine at hstep
    dsimp only at hstep
    cases hp : planner_node m st e with
    | ok r =>
      rw [hp] at hstep
      dsimp only [Except.map] at hstep
      cases hstep
      obtain ⟨hiter, hfbgoto, hpm⟩ := planner_node_inv hp
      refine ⟨by rw [hiter]; exact hle, ?_⟩
      intro hc
      rcases hc with hc | hc
      · rw [hiter]
        exact hfbgoto hc
      · exact absurd hc hpm
    | error msg =>
      rw [hp] at hstep
      dsimp only [Except.map] at hstep
      cases hstep
  | plan_modifier =>
    unfold stepMachine at hstep
    dsimp only at hstep
    obtain ⟨hiter, hgoto⟩ := plan_modifier_node_inv hstep
    have hlt := hfb (Or.inr rfl)
    exact ⟨by rw [hiter]; omega, fun _ => by rw [hiter]; exact hlt⟩
  | feedback_node =>
    unfold stepMachine at hstep
    dsimp only at hstep
    obtain ⟨hiter, hsame⟩ := human_feedback_node_inv hstep
    have hlt := hfb (Or.inl rfl)
    refine ⟨by omega, ?_⟩
    intro hc
    rw [hsame hc]
    exact hlt
  | research_team =>
    unfold stepMachine at hstep
    dsimp only at hstep
    cases hr : research_team_node st with
    | ok g =>
      rw [hr] at hstep
      dsimp only [Except.map] at hstep
      cases hstep
      refine ⟨hle, ?_⟩
      intro hc
      rcases research_team_node_goto hr with hg | hg | hg <;>
        rcases hc with hc | hc <;> rw [hg] at hc <;> simp at hc
    | error msg =>
      rw [hr] at hstep
      dsimp only [Except.map] at hstep
      cases hstep
  | researcher =>
    unfold stepMachine at hstep
    dsimp only at hstep
    obtain ⟨hiter, hgoto⟩ := execute_agent_step_inv hstep
    refine ⟨by rw [hiter]; exact hle, ?_⟩
    intro hc
    rcases hc with hc | hc <;> rw [hgoto] at hc <;> simp at hc
  | coder =>
    unfold stepMachine at hstep
    dsimp only at hstep
    obtain ⟨hiter, hgoto⟩ := execute_agent_step_inv hstep
    refine ⟨by rw [hiter]; exact hle, ?_⟩
    intro hc
    rcases hc with hc | hc <;> rw [hgoto] at hc <;> simp at hc
  | reporter =>
    unfold stepMachine at hstep
    dsimp only at hstep
    unfold reporter_node at hstep
    cases hstep
    exact ⟨hle, fun hc => by rcases hc with hc | hc <;> simp at hc⟩
  | end_ =>
    unfold stepMachine at hstep
    dsimp only at hstep
    cases hstep
    exact ⟨hle, fun hc => by rcases hc with hc | hc <;> simp at hc⟩

/-- The invariant holds at every configuration of every machine run. -/
theorem runMachine_inv (m : Nat) (envs : List Env) :
    ∀ (st : GState) (n : Node), MachineInv m st n →
      ∀ p ∈ runMachine m st n envs, MachineInv m p.1 p.2 := by
  induction envs with
  | nil =>
    intro st n hinv p hp
    unfold runMachine at hp
    simp only [List.mem_singleton] at hp
    subst hp
    exact hinv
  | cons e rest ih =>
    intro st n hinv p hp
    unfold runMachine at hp
    simp only [List.mem_cons] at hp
    rcases hp with rfl | hp
    · exact hinv
    · split at hp
      · simp at hp
      · split at hp
        · simp at hp
        next st' n' hstep =>
          exact ih st' n' (stepMachine_inv hinv hstep) p hp

/-- C3 (confirmed; graph dispatch modelled from the spec since
`builder.py` is absent from `src/`): over every machine run from the
driver's initial state, `plan_iterations` never exceeds
`max_plan_iterations`; and whenever the planner is entered with
`plan_iterations ≥ max_plan_iterations` it routes straight to the
reporter with the model-invocation line never reached
(`invoked_llm = false`). -/
theorem C3_plan_iteration_bound :
    (∀ (m : Nat) (u : String) (hf : Bool) (envs : List Env),
      ∀ p ∈ runMachine m (initialState u hf) Node.coordinator envs,
        p.1.plan_iterations ≤ m)
  ∧ (∀ (m : Nat) (st : GState) (e : Env), st.plan_iterations ≥ m →
      planner_node m st e =
        Except.ok { st := st, goto := Node.reporter, invoked_llm := false }) := by
  constructor
  · intro m u hf envs p hp
    have hinv0 : MachineInv m (initialState u hf) Node.coordinator :=
      ⟨Nat.zero_le m, fun hc => by rcases hc with hc | hc <;> simp at hc⟩
    exact (runMachine_inv m envs _ _ hinv0 p hp).1
  · intro m st e hge
    unfold planner_node
    dsimp only
    rw [pyIterRead_eq, if_pos hge]

/-- Witness for C3: the bound on a concrete one-configuration run, and
the planner's concrete short-circuit at the maximum. -/
theorem C3_plan_iteration_bound_witness :
    ((initialState ("q") false, Node.coordinator) :
      GState × Node).1.plan_iterations ≤ 1 ∧
    planner_node 0 fixtureState fixtureEnv =
      Except.ok { st := fixtureState, goto := Node.reporter, invoked_llm := false } := by
  constructor
  · exact C3_plan_iteration_bound.1 1 ("q") false []
      (initialState ("q") false, Node.coordinator) (by simp [runMachine])
  · exact C3_plan_iteration_bound.2 0 fixtureState fixtureEnv (Nat.zero_le _)

end MedDR
